import Mathlib

/-!
# learning-go: the in-memory movies CRUD service

Shallow embedding of `projects/go-movies-crud/main.go`, followed by the
`/hello` handler of `projects/go-server/main.go` and the pure functions of
`functions/01-using-function/main.go` (`divide`, `factorial`, `findMax`,
`findMaxSlice`, `reverseString`).

The package-level slice `movies` is threaded explicitly: every handler is a
function from the current collection and the request to the response written
and the collection left behind.  The two library effects a handler depends on
are inputs of the model: the value `json.Decoder.Decode` leaves in a fresh
`Movie` (carried by the request body) and the integer `rand.Intn` draws.
-/

set_option autoImplicit false

namespace MoviesCrud

/-! ## Data model -/

/-- Go `type Director struct`. -/
structure Director where
  FirstName : String
  LastName : String
deriving DecidableEq

/-- Go `type Movie struct`; the nil-able `*Director` is an `Option`. -/
structure Movie where
  ID : String
  ISBN : String
  Title : String
  Director : Option Director
deriving DecidableEq

/-- The zero value `Movie{}` of Go: empty strings and a nil director. -/
def zeroMovie : Movie := { ID := "", ISBN := "", Title := "", Director := none }

/-- Request body as seen by a handler: `value` is what
`json.NewDecoder(r.Body).Decode(&movie)` leaves in a zero-valued `movie`,
`err` tells whether `Decode` returned an error (the handlers drop it). -/
structure Body where
  value : Movie
  err : Bool
deriving DecidableEq

/-- The part of `*http.Request` the handlers read: `id` is
`mux.Vars(r)["id"]`, `body` is the request body. -/
structure Request where
  id : String
  body : Body
deriving DecidableEq

/-- The value handed to `json.NewEncoder(w).Encode`. -/
inductive Payload where
  | movie (m : Movie)
  | movies (ms : List Movie)
deriving DecidableEq

/-- What a handler leaves in the `http.ResponseWriter`: the `Content-Type`
header it set, the status (net/http sends 200 when `WriteHeader` is never
called) and the encoded value. -/
structure Response where
  contentType : String
  status : Nat
  body : Payload
deriving DecidableEq

/-- `w.Header().Set("Content-Type", "application/json")` followed by one
`Encode` and no `WriteHeader`: the shape of every response of this service. -/
def jsonResponse (p : Payload) : Response :=
  { contentType := "application/json", status := 200, body := p }

/-! ## `strconv.Itoa` -/

/-- The digit `d` as a character: `"0123456789"[d]`. -/
def digitChar (d : Nat) : Char := Char.ofNat (48 + d)

/-- Digit loop of `strconv.formatBits` in base 10: digits are produced from
the least significant one and pushed in front of `acc`; the last step writes
the leading digit.  The first argument bounds the number of iterations. -/
def formatBits : Nat → Nat → List Char → List Char
  | 0, _, acc => acc
  | fuel + 1, u, acc =>
    if u < 10 then digitChar u :: acc
    else formatBits fuel (u / 10) (digitChar (u % 10) :: acc)

/-- Go `strconv.Itoa`: decimal text of an integer, with a leading minus sign
when negative. -/
def Itoa (i : Int) : String :=
  if i < 0 then String.mk ('-' :: formatBits (i.natAbs + 1) i.natAbs [])
  else String.mk (formatBits (i.natAbs + 1) i.natAbs [])

/-- Value of a digit string read in base 10 (used to state what `Itoa`
returns). -/
def decimalValue (s : List Char) : Nat :=
  s.foldl (fun acc ch => 10 * acc + (ch.toNat - 48)) 0

/-! ## Handlers -/

/-- Go `append(movies[:index], movies[index+1:]...)`. -/
def removeIndex (movies : List Movie) (index : Nat) : List Movie :=
  movies.take index ++ movies.drop (index + 1)

/-- Go `getMovies`. -/
def getMovies (movies : List Movie) (_r : Request) : Response × List Movie :=
  (jsonResponse (Payload.movies movies), movies)

/-- The `for index, item := range movies` loop of `deleteMovie`, run on the
items not yet visited; `index` is the position of the first of them. -/
def deleteMovieLoop (movies : List Movie) (id : String) : List Movie → Nat → List Movie
  | [], _ => movies
  | item :: rest, index =>
    if item.ID = id then removeIndex movies index
    else deleteMovieLoop movies id rest (index + 1)

/-- Go `deleteMovie`. -/
def deleteMovie (movies : List Movie) (r : Request) : Response × List Movie :=
  let movies1 := deleteMovieLoop movies r.id movies 0
  (jsonResponse (Payload.movies movies1), movies1)

/-- The `for _, item := range movies` loop of `getMovie`: the item encoded
by the loop, if it returns from inside. -/
def getMovieLoop (id : String) : List Movie → Option Movie
  | [] => none
  | item :: rest => if item.ID = id then some item else getMovieLoop id rest

/-- Go `getMovie`. -/
def getMovie (movies : List Movie) (r : Request) : Response × List Movie :=
  match getMovieLoop r.id movies with
  | some item => (jsonResponse (Payload.movie item), movies)
  | none => (jsonResponse (Payload.movie zeroMovie), movies)

/-- Go `createMovie`; `n` is the integer drawn by `rand.Intn(1000000)`. -/
def createMovie (movies : List Movie) (r : Request) (n : Int) : Response × List Movie :=
  let movie : Movie := { r.body.value with ID := Itoa n }
  (jsonResponse (Payload.movie movie), movies ++ [movie])

/-- The `for index, item := range movies` loop of `updateMovie`, run on the
items not yet visited; falls through to the final `Encode(movies)`. -/
def updateMovieLoop (movies : List Movie) (r : Request) :
    List Movie → Nat → Response × List Movie
  | [], _ => (jsonResponse (Payload.movies movies), movies)
  | item :: rest, index =>
    if item.ID = r.id then
      let movies1 := removeIndex movies index
      let movie : Movie := { r.body.value with ID := r.id }
      (jsonResponse (Payload.movie movie), movies1 ++ [movie])
    else updateMovieLoop movies r rest (index + 1)

/-- Go `updateMovie`. -/
def updateMovie (movies : List Movie) (r : Request) : Response × List Movie :=
  updateMovieLoop movies r movies 0

/-- The collection `main` builds before it starts serving. -/
def seedMovies : List Movie :=
  [ { ID := "1", ISBN := "438227", Title := "Star Wars",
      Director := some { FirstName := "George", LastName := "Lucas" } },
    { ID := "2", ISBN := "454555", Title := "The Lord of the Rings",
      Director := some { FirstName := "Peter", LastName := "Jackson" } },
    { ID := "3", ISBN := "123456", Title := "Inception",
      Director := some { FirstName := "Christopher", LastName := "Nolan" } },
    { ID := "4", ISBN := "654321", Title := "The Matrix",
      Director := some { FirstName := "Lana", LastName := "Wachowski" } } ]

/-! ## Concrete requests used in the examples -/

/-- A collection in which the id "1" occurs twice. -/
def dupMovies : List Movie :=
  [ { ID := "7", ISBN := "a", Title := "A", Director := none },
    { ID := "1", ISBN := "b", Title := "B", Director := none },
    { ID := "3", ISBN := "c", Title := "C", Director := none },
    { ID := "1", ISBN := "d", Title := "D", Director := none } ]

/-- A request for id "1" whose body decodes to a record carrying id "77". -/
def sampleRequest : Request :=
  { id := "1",
    body := { value := { ID := "77", ISBN := "NEW", Title := "NewTitle", Director := none },
              err := false } }

/-- A request for an id no seed record has. -/
def unknownRequest : Request :=
  { id := "999",
    body := { value := { ID := "5", ISBN := "X", Title := "Y", Director := none },
              err := false } }

/-! ## The router and sequences of requests -/

/-- One request as dispatched by the router of `main`: the route it matches
and what the handler of that route reads (for Create also the integer drawn
by `rand.Intn`). -/
inductive Call where
  | list (r : Request)
  | get (r : Request)
  | create (r : Request) (n : Int)
  | update (r : Request)
  | delete (r : Request)
deriving DecidableEq

/-- The route table of `main`: GET /movies, GET /movies/{id}, POST /movies,
PUT /movies/{id}, DELETE /movies/{id}. -/
def serve (movies : List Movie) : Call → Response × List Movie
  | Call.list r => getMovies movies r
  | Call.get r => getMovie movies r
  | Call.create r n => createMovie movies r n
  | Call.update r => updateMovie movies r
  | Call.delete r => deleteMovie movies r

/-- The collection left after the calls are served one after the other. -/
def serveAll (movies : List Movie) : List Call → List Movie
  | [] => movies
  | k :: rest => serveAll (serve movies k).2 rest

/-- Whether the call is routed to one of `createMovie`, `updateMovie`,
`deleteMovie`. -/
def Call.isWrite : Call → Bool
  | Call.list _ => false
  | Call.get _ => false
  | Call.create _ _ => true
  | Call.update _ => true
  | Call.delete _ => true

/-- What `rand.Intn(1000000)` guarantees of the integer a Create draws. -/
def Call.drawInRange : Call → Bool
  | Call.create _ n => decide (0 ≤ n ∧ n < 1000000)
  | _ => true

/-- The same request with the id carried by its body replaced. -/
def Request.withBodyId (r : Request) (f : String → String) : Request :=
  { r with body := { r.body with value := { r.body.value with ID := f r.body.value.ID } } }

/-- The same call with the id carried by its request body replaced. -/
def Call.withBodyId (f : String → String) : Call → Call
  | Call.list r => Call.list (r.withBodyId f)
  | Call.get r => Call.get (r.withBodyId f)
  | Call.create r n => Call.create (r.withBodyId f) n
  | Call.update r => Call.update (r.withBodyId f)
  | Call.delete r => Call.delete (r.withBodyId f)

/-- Number of records of the collection whose id is `id`. -/
def idCount (id : String) (c : List Movie) : Nat :=
  c.countP (fun m => decide (m.ID = id))

/-- A request whose body failed to decode and left the record zero-valued. -/
def failedRequest : Request :=
  { id := "1", body := { value := zeroMovie, err := true } }

/-- A collection whose only record with id "5" has no isbn, title or
director. -/
def emptyRecordMovies : List Movie :=
  seedMovies ++ [{ ID := "5", ISBN := "", Title := "", Director := none }]

/-- A sequence of requests mixing every route. -/
def sampleCalls : List Call :=
  [ Call.create sampleRequest 42, Call.update sampleRequest, Call.delete unknownRequest,
    Call.get sampleRequest, Call.create unknownRequest 1, Call.delete sampleRequest,
    Call.list sampleRequest ]

end MoviesCrud

/-! # The static server: `projects/go-server/main.go` -/

namespace GoServer

/-- The part of `*http.Request` the `/hello` handler reads: `r.URL.Path` and
`r.Method`. -/
structure HelloRequest where
  Path : String
  Method : String
deriving DecidableEq

/-- What a handler leaves in the `http.ResponseWriter`: the status (200 when
`WriteHeader` is never called) and the bytes written. -/
structure Written where
  status : Nat
  body : String
deriving DecidableEq

/-- The constant `http.StatusNotFound`. -/
def StatusNotFound : Nat := 404

/-- Go `http.Error(w, error, code)`: writes the header with `code` and then
the message followed by a newline (`fmt.Fprintln`). -/
def httpError (error : String) (code : Nat) : Written :=
  { status := code, body := error ++ "\n" }

/-- The handler registered for "/hello" in `main`. -/
def helloHandler (r : HelloRequest) : Written :=
  if r.Path ≠ "/hello" then httpError "404 not found." StatusNotFound
  else if r.Method ≠ "GET" then httpError "Method is not supported." StatusNotFound
  else { status := 200, body := "Hello!" }

end GoServer

/-! # Functions: `functions/01-using-function/main.go` -/

namespace Functions

/-- Two's-complement wrap-around of a result into the 64-bit range of Go's
`int`. -/
def wrap64 (x : Int) : Int :=
  (x + 9223372036854775808) % 18446744073709551616 - 9223372036854775808

/-- Go `divide`: `a / b` and `a % b` on `int` truncate toward zero; dividing
by zero panics (`none`).  The quotient wraps in the one overflowing case, the
most negative `int` divided by -1. -/
def divide (a b : Int) : Option (Int × Int) :=
  if b = 0 then none
  else
    let quotient := wrap64 (Int.tdiv a b)
    let remainder := Int.tmod a b
    some (quotient, remainder)

/-- Go `factorial`, run with room for `frames` more activation records on the
goroutine stack.  Every call, the first included, takes one record and keeps
it until the call below it has returned (the multiplication comes after the
recursive call, so it is not a tail call); a call that finds no room is the
fatal stack overflow of the Go runtime, after which nothing is returned
(`none`).  The product wraps as Go's `int` does. -/
def factorial : Nat → Int → Option Int
  | 0, _ => none
  | frames + 1, n =>
    if n ≤ 1 then some 1
    else
      match factorial frames (n - 1) with
      | none => none
      | some v => some (wrap64 (n * v))

/-- Upper bound on the activation records of `factorial` that fit on a
goroutine stack: the limit of the Go runtime on 64-bit systems, 1 GB, divided
by 16 bytes, the least a record holds (a return address and the argument kept
for the multiplication). -/
def maxFrames : Nat := 1000000000 / 16

/-- The `for _, num := range numbers` loop shared in shape by `findMax` and
`findMaxSlice`, with the running value of `max`. -/
def findMaxLoop (max : Int) : List Int → Int
  | [] => max
  | num :: rest => if num > max then findMaxLoop num rest else findMaxLoop max rest

/-- Go `findMax(numbers ...int)`. -/
def findMax (numbers : List Int) : Int :=
  match numbers with
  | [] => 0
  | first :: _ => findMaxLoop first numbers

/-- The loop of `findMaxSlice`. -/
def findMaxSliceLoop (max : Int) : List Int → Int
  | [] => max
  | num :: rest => if num > max then findMaxSliceLoop num rest else findMaxSliceLoop max rest

/-- Go `findMaxSlice(numbers []int)`. -/
def findMaxSlice (numbers : List Int) : Int :=
  match numbers with
  | [] => 0
  | first :: _ => findMaxSliceLoop first numbers

/-- Go `runes[i], runes[j] = runes[j], runes[i]`. -/
def swapRunes (runes : List Char) (i j : Nat) : List Char :=
  (runes.set i (runes.getD j default)).set j (runes.getD i default)

/-- The loop `for i, j := 0, len(runes)-1; i < j; i, j = i+1, j-1` of
`reverseString`; the first argument bounds the number of iterations. -/
def reverseLoop : Nat → List Char → Int → Int → List Char
  | 0, runes, _, _ => runes
  | fuel + 1, runes, i, j =>
    if i < j then reverseLoop fuel (swapRunes runes i.toNat j.toNat) (i + 1) (j - 1)
    else runes

/-- Go `reverseString`: `[]rune(s)` is the list of code points of `s`. -/
def reverseString (s : String) : String :=
  let runes := s.data
  String.mk (reverseLoop runes.length runes 0 ((runes.length : Int) - 1))

end Functions

namespace MoviesCrud

/-! ## Loop lemmas -/

theorem removeIndex_append_cons (pre : List Movie) (x : Movie) (post : List Movie) :
    removeIndex (pre ++ x :: post) pre.length = pre ++ post := by
  simp [removeIndex, List.take_append_eq_append_take, List.drop_append_eq_append_drop]

/-- A list holding a record of id `id` splits at its first such record. -/
theorem exists_first_split (id : String) (c : List Movie) (h : ∃ m ∈ c, m.ID = id) :
    ∃ pre x post, c = pre ++ x :: post ∧ x.ID = id ∧ ∀ y ∈ pre, y.ID ≠ id := by
  induction c with
  | nil => simp at h
  | cons a t ih =>
    by_cases ha : a.ID = id
    · exact ⟨[], a, t, rfl, ha, by simp⟩
    · have ht : ∃ m ∈ t, m.ID = id := by
        obtain ⟨m, hm, hid⟩ := h
        rcases List.mem_cons.mp hm with rfl | hm
        · exact absurd hid ha
        · exact ⟨m, hm, hid⟩
      obtain ⟨pre, x, post, hc, hx, hpre⟩ := ih ht
      refine ⟨a :: pre, x, post, by simp [hc], hx, ?_⟩
      intro y hy
      rcases List.mem_cons.mp hy with rfl | hy
      · exact ha
      · exact hpre y hy

theorem deleteMovieLoop_found (id : String) (x : Movie) (post : List Movie) (hx : x.ID = id) :
    ∀ (mid pre : List Movie), (∀ y ∈ mid, y.ID ≠ id) →
      deleteMovieLoop (pre ++ mid ++ x :: post) id (mid ++ x :: post) pre.length
        = pre ++ mid ++ post := by
  intro mid
  induction mid with
  | nil =>
    intro pre _
    simp only [List.append_nil, List.nil_append, deleteMovieLoop, hx, if_true]
    exact removeIndex_append_cons pre x post
  | cons a t ih =>
    intro pre hmid
    have ha : a.ID ≠ id := hmid a (List.mem_cons_self a t)
    have ht : ∀ y ∈ t, y.ID ≠ id := fun y hy => hmid y (List.mem_cons_of_mem a hy)
    have h := ih (pre ++ [a]) ht
    simp only [List.length_append, List.length_singleton, List.append_assoc,
      List.singleton_append] at h
    simp only [List.cons_append, deleteMovieLoop, ha, if_false, List.append_assoc]
    exact h

theorem deleteMovieLoop_absent (movies : List Movie) (id : String) :
    ∀ (rest : List Movie) (index : Nat), (∀ y ∈ rest, y.ID ≠ id) →
      deleteMovieLoop movies id rest index = movies := by
  intro rest
  induction rest with
  | nil => intro index _; rfl
  | cons a t ih =>
    intro index h
    have ha : a.ID ≠ id := h a (List.mem_cons_self a t)
    simp only [deleteMovieLoop, ha, if_false]
    exact ih (index + 1) (fun y hy => h y (List.mem_cons_of_mem a hy))

theorem updateMovieLoop_found (r : Request) (x : Movie) (post : List Movie)
    (hx : x.ID = r.id) :
    ∀ (mid pre : List Movie), (∀ y ∈ mid, y.ID ≠ r.id) →
      updateMovieLoop (pre ++ mid ++ x :: post) r (mid ++ x :: post) pre.length
        = (jsonResponse (Payload.movie { r.body.value with ID := r.id }),
            pre ++ mid ++ post ++ [{ r.body.value with ID := r.id }]) := by
  intro mid
  induction mid with
  | nil =>
    intro pre _
    simp only [List.append_nil, List.nil_append, updateMovieLoop, hx, if_true]
    rw [removeIndex_append_cons pre x post]
  | cons a t ih =>
    intro pre hmid
    have ha : a.ID ≠ r.id := hmid a (List.mem_cons_self a t)
    have ht : ∀ y ∈ t, y.ID ≠ r.id := fun y hy => hmid y (List.mem_cons_of_mem a hy)
    have h := ih (pre ++ [a]) ht
    simp only [List.length_append, List.length_singleton, List.append_assoc,
      List.singleton_append] at h
    simp only [List.cons_append, updateMovieLoop, ha, if_false, List.append_assoc]
    exact h

theorem updateMovieLoop_absent (movies : List Movie) (r : Request) :
    ∀ (rest : List Movie) (index : Nat), (∀ y ∈ rest, y.ID ≠ r.id) →
      updateMovieLoop movies r rest index = (jsonResponse (Payload.movies movies), movies) := by
  intro rest
  induction rest with
  | nil => intro index _; rfl
  | cons a t ih =>
    intro index h
    have ha : a.ID ≠ r.id := h a (List.mem_cons_self a t)
    simp only [updateMovieLoop, ha, if_false]
    exact ih (index + 1) (fun y hy => h y (List.mem_cons_of_mem a hy))

theorem getMovieLoop_found (id : String) (x : Movie) (post : List Movie) (hx : x.ID = id) :
    ∀ (pre : List Movie), (∀ y ∈ pre, y.ID ≠ id) →
      getMovieLoop id (pre ++ x :: post) = some x := by
  intro pre
  induction pre with
  | nil => intro _; simp [getMovieLoop, hx]
  | cons a t ih =>
    intro h
    have ha : a.ID ≠ id := h a (List.mem_cons_self a t)
    simp only [List.cons_append, getMovieLoop, ha, if_false]
    exact ih (fun y hy => h y (List.mem_cons_of_mem a hy))

theorem getMovieLoop_absent (id : String) :
    ∀ (c : List Movie), (∀ y ∈ c, y.ID ≠ id) → getMovieLoop id c = none := by
  intro c
  induction c with
  | nil => intro _; rfl
  | cons a t ih =>
    intro h
    have ha : a.ID ≠ id := h a (List.mem_cons_self a t)
    simp only [getMovieLoop, ha, if_false]
    exact ih (fun y hy => h y (List.mem_cons_of_mem a hy))

/-! ## Lemmas on `strconv.Itoa` -/

theorem digitChar_toNat : ∀ d < 10, (digitChar d).toNat = 48 + d := by decide

theorem digitChar_isDigit : ∀ d < 10, (digitChar d).isDigit = true := by decide

theorem digitChar_ne_zero : ∀ d < 10, d ≠ 0 → digitChar d ≠ '0' := by decide

/-- With enough iterations the digits written in front of `acc` read back
as `u`. -/
theorem formatBits_foldl (f : Nat → Char → Nat)
    (hf : f = fun acc ch => 10 * acc + (ch.toNat - 48)) :
    ∀ (fuel u : Nat) (acc : List Char), u < fuel →
      (formatBits fuel u acc).foldl f 0 = acc.foldl f u := by
  intro fuel
  induction fuel with
  | zero => intro u acc h; omega
  | succ k ih =>
    intro u acc h
    by_cases hu : u < 10
    · simp only [formatBits, hu, if_true, List.foldl_cons]
      congr 1
      subst hf
      simp only [digitChar_toNat u hu]
      omega
    · simp only [formatBits, hu, if_false]
      rw [ih (u / 10) _ (by omega), List.foldl_cons]
      congr 1
      subst hf
      simp only [digitChar_toNat (u % 10) (by omega)]
      omega

theorem formatBits_isDigit :
    ∀ (fuel u : Nat) (acc : List Char), (∀ ch ∈ acc, ch.isDigit = true) →
      ∀ ch ∈ formatBits fuel u acc, ch.isDigit = true := by
  intro fuel
  induction fuel with
  | zero => intro u acc h; simpa [formatBits] using h
  | succ k ih =>
    intro u acc h
    by_cases hu : u < 10
    · simp only [formatBits, hu, if_true]
      intro ch hch
      rcases List.mem_cons.mp hch with rfl | hch
      · exact digitChar_isDigit u hu
      · exact h ch hch
    · simp only [formatBits, hu, if_false]
      apply ih
      intro ch hch
      rcases List.mem_cons.mp hch with rfl | hch
      · exact digitChar_isDigit (u % 10) (by omega)
      · exact h ch hch

/-- A number below `10 ^ k` is written with at least one and at most `k`
digits. -/
theorem formatBits_length :
    ∀ (fuel u k : Nat) (acc : List Char), u < fuel → 0 < k → u < 10 ^ k →
      acc.length + 1 ≤ (formatBits fuel u acc).length ∧
        (formatBits fuel u acc).length ≤ acc.length + k := by
  intro fuel
  induction fuel with
  | zero => intro u k acc h; omega
  | succ n ih =>
    intro u k acc h hk hlt
    by_cases hu : u < 10
    · simp only [formatBits, hu, if_true, List.length_cons]
      omega
    · simp only [formatBits, hu, if_false]
      have hk2 : 0 < k - 1 := by
        rcases Nat.lt_or_ge 1 k with h1 | h1
        · omega
        · have : k = 1 := by omega
          subst this
          simp at hlt
          omega
      have hpow : u / 10 < 10 ^ (k - 1) := by
        have hk1 : k = (k - 1) + 1 := by omega
        rw [hk1, pow_succ] at hlt
        exact Nat.div_lt_of_lt_mul (by rw [Nat.mul_comm]; exact hlt)
      have h2 := ih (u / 10) (k - 1) (digitChar (u % 10) :: acc) (by omega) hk2 hpow
      simp only [List.length_cons] at h2
      omega

/-- The text starts with a non-zero digit unless the number is 0. -/
theorem formatBits_head :
    ∀ (fuel u : Nat) (acc : List Char), u < fuel → 0 < u →
      ∃ d tl, formatBits fuel u acc = d :: tl ∧ d ≠ '0' := by
  intro fuel
  induction fuel with
  | zero => intro u acc h; omega
  | succ n ih =>
    intro u acc h hpos
    by_cases hu : u < 10
    · simp only [formatBits, hu, if_true]
      exact ⟨_, _, rfl, digitChar_ne_zero u hu (by omega)⟩
    · simp only [formatBits, hu, if_false]
      exact ih (u / 10) _ (by omega) (by omega)

/-- For a non-negative integer `Itoa` writes its canonical decimal text: only
digits, at least one, reading back as the integer, and no leading zero unless
the integer is 0. -/
theorem Itoa_nonneg (n : Int) (h : 0 ≤ n) :
    (∀ ch ∈ (Itoa n).data, ch.isDigit = true) ∧
      ((decimalValue (Itoa n).data : Nat) : Int) = n ∧
      1 ≤ (Itoa n).length ∧
      (n = 0 ∨ ∃ d tl, (Itoa n).data = d :: tl ∧ d ≠ '0') := by
  have hneg : ¬ n < 0 := by omega
  have hI : Itoa n = String.mk (formatBits (n.natAbs + 1) n.natAbs []) := by
    simp only [Itoa, hneg, if_false]
  rw [hI]
  refine ⟨?_, ?_, ?_, ?_⟩
  · exact formatBits_isDigit _ _ [] (by simp)
  · have := formatBits_foldl _ rfl (n.natAbs + 1) n.natAbs [] (by omega)
    simp only [decimalValue, this, List.foldl_nil]
    omega
  · have := (formatBits_length (n.natAbs + 1) n.natAbs (n.natAbs + 1) []
      (by omega) (by omega) (Nat.lt_of_lt_of_le (by omega) (Nat.lt_pow_self (by omega) _).le)).1
    simpa [String.length] using this
  · rcases Nat.eq_zero_or_pos n.natAbs with h0 | hpos
    · left; omega
    · right
      exact formatBits_head (n.natAbs + 1) n.natAbs [] (by omega) hpos

/-- Below `10 ^ k` the text of a non-negative integer has at most `k`
characters. -/
theorem Itoa_length_le (n : Int) (k : Nat) (h : 0 ≤ n) (hk : 0 < k) (hn : n < 10 ^ k) :
    (Itoa n).length ≤ k := by
  have hneg : ¬ n < 0 := by omega
  have hI : Itoa n = String.mk (formatBits (n.natAbs + 1) n.natAbs []) := by
    simp only [Itoa, hneg, if_false]
  have hlt : n.natAbs < 10 ^ k := by
    have h1 : ((n.natAbs : Nat) : Int) < ((10 ^ k : Nat) : Int) := by
      rw [Int.natAbs_of_nonneg h]; exact_mod_cast hn
    exact_mod_cast h1
  have := (formatBits_length (n.natAbs + 1) n.natAbs k [] (by omega) hk hlt).2
  rw [hI]
  simpa [String.length] using this

/-- The text of a negative integer starts with the minus sign. -/
theorem Itoa_neg (n : Int) (h : n < 0) : ∃ tl, (Itoa n).data = '-' :: tl := by
  simp only [Itoa, h, if_true]
  exact ⟨_, rfl⟩

/-- Texts written by `Itoa` determine the integer when one of the two is
non-negative. -/
theorem Itoa_inj_of_nonneg (n k : Int) (hk : 0 ≤ k) (h : Itoa n = Itoa k) : n = k := by
  rcases Int.lt_or_le n 0 with hn | hn
  · obtain ⟨tl, htl⟩ := Itoa_neg n hn
    have hmem : '-' ∈ (Itoa k).data := by rw [← h, htl]; exact List.mem_cons_self _ _
    have := (Itoa_nonneg k hk).1 _ hmem
    exact absurd this (by decide)
  · have h1 := (Itoa_nonneg n hn).2.1
    have h2 := (Itoa_nonneg k hk).2.1
    rw [h] at h1
    omega

/-- `Itoa` never returns the empty string. -/
theorem Itoa_ne_empty (n : Int) : Itoa n ≠ "" := by
  intro he
  rcases Int.lt_or_le n 0 with hn | hn
  · obtain ⟨tl, htl⟩ := Itoa_neg n hn
    rw [he] at htl
    exact absurd htl (by simp)
  · have := (Itoa_nonneg n hn).2.2.1
    rw [he] at this
    exact absurd this (by decide)

theorem Itoa_examples :
    Itoa 0 = "0" ∧ Itoa 7 = "7" ∧ Itoa 42 = "42" ∧ Itoa 1000 = "1000" ∧
      Itoa 999999 = "999999" ∧ Itoa (-45) = "-45" := by decide

/-! ## Claims -/

/-- C1: when some record of the collection has the path id, `updateMovie`
leaves the collection with its first record of that id removed, all other
records (later ones of the same id included) in their order, and the decoded
body with its id set to the path id appended last; the length is unchanged and
the appended record is built from the request alone. -/
theorem updateMovie_existing_collection (c : List Movie) (r : Request)
    (h : ∃ m ∈ c, m.ID = r.id) :
    ∃ pre x post, c = pre ++ x :: post ∧ x.ID = r.id ∧ (∀ y ∈ pre, y.ID ≠ r.id) ∧
      (updateMovie c r).2 = pre ++ post ++
        [Movie.mk r.id r.body.value.ISBN r.body.value.Title r.body.value.Director] ∧
      (updateMovie c r).2.length = c.length := by
  obtain ⟨pre, x, post, hc, hx, hpre⟩ := exists_first_split r.id c h
  refine ⟨pre, x, post, hc, hx, hpre, ?_, ?_⟩
  · have := updateMovieLoop_found r x post hx pre [] hpre
    simp only [List.nil_append, List.length_nil] at this
    rw [hc, updateMovie, this]
  · have := updateMovieLoop_found r x post hx pre [] hpre
    simp only [List.nil_append, List.length_nil] at this
    rw [hc, updateMovie, this]
    simp only [List.length_append, List.length_cons, List.length_nil]
    omega

theorem updateMovie_existing_collection_witness :
    (∃ m ∈ dupMovies, m.ID = sampleRequest.id) ∧
    ∃ pre x post, dupMovies = pre ++ x :: post ∧ x.ID = sampleRequest.id ∧
      (∀ y ∈ pre, y.ID ≠ sampleRequest.id) ∧
      (updateMovie dupMovies sampleRequest).2 = pre ++ post ++
        [Movie.mk sampleRequest.id sampleRequest.body.value.ISBN
          sampleRequest.body.value.Title sampleRequest.body.value.Director] ∧
      (updateMovie dupMovies sampleRequest).2.length = dupMovies.length :=
  ⟨by decide, updateMovie_existing_collection dupMovies sampleRequest (by decide)⟩

/-- C2: when some record of the collection has the path id, `deleteMovie`
leaves the collection with exactly its first record of that id removed, the
others in their order, one element shorter, and responds with that
collection; on the seed collection deleting id "2" leaves ids 1, 3, 4. -/
theorem deleteMovie_existing (c : List Movie) (r : Request)
    (h : ∃ m ∈ c, m.ID = r.id) :
    (∃ pre x post, c = pre ++ x :: post ∧ x.ID = r.id ∧ (∀ y ∈ pre, y.ID ≠ r.id) ∧
      (deleteMovie c r).2 = pre ++ post ∧
      (deleteMovie c r).1 = jsonResponse (Payload.movies (pre ++ post))) ∧
    (deleteMovie c r).2.length + 1 = c.length ∧
    (deleteMovie seedMovies { r with id := "2" }).2.map Movie.ID = ["1", "3", "4"] ∧
    ∃ ms, (deleteMovie seedMovies { r with id := "2" }).1 = jsonResponse (Payload.movies ms) ∧
      ms.map Movie.ID = ["1", "3", "4"] := by
  obtain ⟨pre, x, post, hc, hx, hpre⟩ := exists_first_split r.id c h
  have hloop := deleteMovieLoop_found r.id x post hx pre [] hpre
  simp only [List.nil_append, List.length_nil] at hloop
  have h2 : (deleteMovie c r).2 = pre ++ post := by
    rw [hc]; simp only [deleteMovie]; exact hloop
  refine ⟨⟨pre, x, post, hc, hx, hpre, h2, ?_⟩, ?_, ?_, ?_⟩
  · rw [hc]; simp only [deleteMovie]; rw [hloop]
  · rw [h2, hc]; simp only [List.length_append, List.length_cons]; omega
  · rfl
  · exact ⟨_, rfl, rfl⟩

theorem deleteMovie_existing_witness :
    (∃ m ∈ dupMovies, m.ID = sampleRequest.id) ∧
    (deleteMovie dupMovies sampleRequest).2.length + 1 = dupMovies.length ∧
    (deleteMovie dupMovies sampleRequest).2.map Movie.ID = ["7", "3", "1"] :=
  ⟨by decide, (deleteMovie_existing dupMovies sampleRequest (by decide)).2.1, by decide⟩

/-- C3: `createMovie` leaves the collection followed by one new last record
whose isbn, title and director are those of the decoded body; the old
collection is an unchanged prefix, the length grows by one, and the response
is the stored record. -/
theorem createMovie_appends (c : List Movie) (r : Request) (n : Int) :
    ∃ m : Movie, (createMovie c r n).2 = c ++ [m] ∧
      m.ISBN = r.body.value.ISBN ∧ m.Title = r.body.value.Title ∧
      m.Director = r.body.value.Director ∧
      (createMovie c r n).2.take c.length = c ∧
      (createMovie c r n).2.length = c.length + 1 ∧
      (createMovie c r n).2.getLast? = some m ∧
      (createMovie c r n).1 = jsonResponse (Payload.movie m) := by
  refine ⟨{ r.body.value with ID := Itoa n }, rfl, rfl, rfl, rfl, ?_, ?_, ?_, rfl⟩
  · simp [createMovie]
  · simp [createMovie]
  · simp [createMovie]

/-- C4: for a drawn integer `n` with `0 ≤ n < 1000000` the record stored and
returned by `createMovie` has as id the decimal text of `n`: only digits,
between 1 and 6 of them, no leading zero unless `n = 0`, reading back as `n`;
the id is the same for every request body and collection. -/
theorem createMovie_id (c : List Movie) (r : Request) (n : Int)
    (h0 : 0 ≤ n) (h1 : n < 1000000) :
    ∃ m : Movie, (createMovie c r n).2 = c ++ [m] ∧
      (createMovie c r n).1 = jsonResponse (Payload.movie m) ∧
      m.ID = Itoa n ∧ m.ID ≠ "" ∧
      1 ≤ m.ID.length ∧ m.ID.length ≤ 6 ∧
      (∀ ch ∈ m.ID.data, ch.isDigit = true) ∧
      ((decimalValue m.ID.data : Nat) : Int) = n ∧
      (n = 0 ∨ ∃ d tl, m.ID.data = d :: tl ∧ d ≠ '0') ∧
      ∀ (c2 : List Movie) (r2 : Request),
        (createMovie c2 r2 n).1 =
          jsonResponse (Payload.movie { r2.body.value with ID := m.ID }) ∧
        (createMovie c2 r2 n).2 = c2 ++ [{ r2.body.value with ID := m.ID }] := by
  obtain ⟨hdig, hval, hlen, hhead⟩ := Itoa_nonneg n h0
  have hle : (Itoa n).length ≤ 6 := Itoa_length_le n 6 h0 (by omega) (by omega)
  refine ⟨{ r.body.value with ID := Itoa n }, rfl, rfl, rfl, ?_, hlen, hle, hdig, hval,
    hhead, fun c2 r2 => ⟨rfl, rfl⟩⟩
  intro he
  have : (Itoa n).length = 0 := by
    have h2 : Itoa n = "" := he
    rw [h2]; rfl
  omega

theorem createMovie_id_witness :
    (0 : Int) ≤ 999999 ∧ (999999 : Int) < 1000000 ∧
    ∃ m : Movie, (createMovie seedMovies sampleRequest 999999).2 = seedMovies ++ [m] ∧
      (createMovie seedMovies sampleRequest 999999).1 = jsonResponse (Payload.movie m) ∧
      m.ID = Itoa 999999 ∧ m.ID ≠ "" ∧
      1 ≤ m.ID.length ∧ m.ID.length ≤ 6 ∧
      (∀ ch ∈ m.ID.data, ch.isDigit = true) ∧
      ((decimalValue m.ID.data : Nat) : Int) = 999999 ∧
      ((999999 : Int) = 0 ∨ ∃ d tl, m.ID.data = d :: tl ∧ d ≠ '0') ∧
      ∀ (c2 : List Movie) (r2 : Request),
        (createMovie c2 r2 999999).1 =
          jsonResponse (Payload.movie { r2.body.value with ID := m.ID }) ∧
        (createMovie c2 r2 999999).2 = c2 ++ [{ r2.body.value with ID := m.ID }] :=
  ⟨by decide, by decide, createMovie_id seedMovies sampleRequest 999999 (by decide) (by decide)⟩

/-- C5 (as stated, refuted): on the seed collection a Create that draws 1
stores and returns a record whose id "1" is the id of a record already in the
collection. -/
theorem createMovie_id_collides :
    ¬ (∀ m : Movie, (createMovie seedMovies sampleRequest 1).1 = jsonResponse (Payload.movie m) →
        m.ID ≠ "" ∧ ∀ old ∈ seedMovies, old.ID ≠ m.ID) := by
  intro hall
  have h := (hall { ID := "1", ISBN := "NEW", Title := "NewTitle", Director := none }
    (by decide)).2
  exact absurd h (by decide)

/-- C5 (amended): the id of the record `createMovie` stores and returns is a
non-empty string, and it differs from the id of every record already in the
collection exactly when the decimal text of the drawn integer is not yet an id
of the collection; on the seed collection that is exactly when the drawn
integer is none of 1, 2, 3, 4. -/
theorem createMovie_id_fresh_iff (c : List Movie) (r : Request) (n : Int) :
    ∃ m : Movie, (createMovie c r n).1 = jsonResponse (Payload.movie m) ∧
      (createMovie c r n).2 = c ++ [m] ∧
      m.ID ≠ "" ∧
      ((∀ old ∈ c, old.ID ≠ m.ID) ↔ Itoa n ∉ c.map Movie.ID) ∧
      ∃ m2 : Movie, (createMovie seedMovies r n).2 = seedMovies ++ [m2] ∧
        ((∀ old ∈ seedMovies, old.ID ≠ m2.ID) ↔ (n ≠ 1 ∧ n ≠ 2 ∧ n ≠ 3 ∧ n ≠ 4)) := by
  refine ⟨{ r.body.value with ID := Itoa n }, rfl, rfl, Itoa_ne_empty n, ?_,
    { r.body.value with ID := Itoa n }, rfl, ?_⟩
  · simp only [List.mem_map, not_exists, not_and]
  · have e1 : ∀ k : Int, 0 ≤ k → (Itoa k = Itoa n ↔ n = k) := fun k hk =>
      ⟨fun h => Itoa_inj_of_nonneg n k hk h.symm, fun h => by rw [h]⟩
    have h1 := e1 1 (by decide)
    have h2 := e1 2 (by decide)
    have h3 := e1 3 (by decide)
    have h4 := e1 4 (by decide)
    have i1 : Itoa 1 = "1" := by decide
    have i2 : Itoa 2 = "2" := by decide
    have i3 : Itoa 3 = "3" := by decide
    have i4 : Itoa 4 = "4" := by decide
    rw [i1] at h1; rw [i2] at h2; rw [i3] at h3; rw [i4] at h4
    simp [seedMovies, h1, h2, h3, h4]

/-- C6: when some record of the collection has an id equal, as a string, to
the path id, `getMovie` responds with the first such record in collection
order, whatever follows it; ids that differ only in case or surrounding blanks
do not match. -/
theorem getMovie_found (c : List Movie) (r : Request) (h : ∃ m ∈ c, m.ID = r.id) :
    (∃ pre x post, c = pre ++ x :: post ∧ x.ID = r.id ∧ (∀ y ∈ pre, y.ID ≠ r.id) ∧
      (getMovie c r).1 = jsonResponse (Payload.movie x)) ∧
    (getMovie seedMovies { r with id := " 1" }).1 = jsonResponse (Payload.movie zeroMovie) ∧
    (getMovie seedMovies { r with id := "1 " }).1 = jsonResponse (Payload.movie zeroMovie) ∧
    (getMovie [{ ID := "ab", ISBN := "i", Title := "t", Director := none }]
        { r with id := "AB" }).1 = jsonResponse (Payload.movie zeroMovie) := by
  refine ⟨?_, rfl, rfl, rfl⟩
  obtain ⟨pre, x, post, hc, hx, hpre⟩ := exists_first_split r.id c h
  refine ⟨pre, x, post, hc, hx, hpre, ?_⟩
  have hl := getMovieLoop_found r.id x post hx pre hpre
  rw [hc]
  simp only [getMovie, hl]

theorem getMovie_found_witness :
    (∃ m ∈ dupMovies, m.ID = sampleRequest.id) ∧
    (∃ pre x post, dupMovies = pre ++ x :: post ∧ x.ID = sampleRequest.id ∧
      (∀ y ∈ pre, y.ID ≠ sampleRequest.id) ∧
      (getMovie dupMovies sampleRequest).1 = jsonResponse (Payload.movie x)) ∧
    (getMovie dupMovies sampleRequest).1 =
      jsonResponse (Payload.movie { ID := "1", ISBN := "b", Title := "B", Director := none }) :=
  ⟨by decide, (getMovie_found dupMovies sampleRequest (by decide)).1, by decide⟩

/-- C7: when no record of the collection has the path id, `getMovie` responds
with the zero-valued Movie (id "", isbn "", title "", no director) under the
default success status. -/
theorem getMovie_absent (c : List Movie) (r : Request) (h : ∀ m ∈ c, m.ID ≠ r.id) :
    (getMovie c r).1.body = Payload.movie (Movie.mk "" "" "" none) ∧
      (getMovie c r).1.status = 200 ∧
      (getMovie c r).1 = jsonResponse (Payload.movie zeroMovie) := by
  have hl := getMovieLoop_absent r.id c h
  have e : getMovie c r = (jsonResponse (Payload.movie zeroMovie), c) := by
    simp only [getMovie, hl]
  rw [e]
  exact ⟨rfl, rfl, rfl⟩

theorem getMovie_absent_witness :
    (∀ m ∈ seedMovies, m.ID ≠ "doesnotexist") ∧
    (getMovie seedMovies { unknownRequest with id := "doesnotexist" }).1.body
      = Payload.movie (Movie.mk "" "" "" none) ∧
    (getMovie seedMovies { unknownRequest with id := "doesnotexist" }).1.status = 200 ∧
    (getMovie seedMovies { unknownRequest with id := "doesnotexist" }).1
      = jsonResponse (Payload.movie zeroMovie) :=
  ⟨by decide,
    getMovie_absent seedMovies { unknownRequest with id := "doesnotexist" } (by decide)⟩

/-- C8: when no record of the collection has the path id, `updateMovie`
leaves the collection as it was, whatever the body, and responds with the
whole collection, not with a single record. -/
theorem updateMovie_unknown (c : List Movie) (r : Request) (h : ∀ m ∈ c, m.ID ≠ r.id) :
    (updateMovie c r).2 = c ∧
      (updateMovie c r).1 = jsonResponse (Payload.movies c) ∧
      (∀ m : Movie, (updateMovie c r).1.body ≠ Payload.movie m) ∧
      (updateMovie c r).1.status = 200 := by
  have hl : updateMovie c r = (jsonResponse (Payload.movies c), c) :=
    updateMovieLoop_absent c r c 0 h
  rw [hl]
  refine ⟨rfl, rfl, ?_, rfl⟩
  intro m hm
  simp [jsonResponse] at hm

theorem updateMovie_unknown_witness :
    (∀ m ∈ seedMovies, m.ID ≠ unknownRequest.id) ∧
    (updateMovie seedMovies unknownRequest).2 = seedMovies ∧
    (updateMovie seedMovies unknownRequest).1 = jsonResponse (Payload.movies seedMovies) ∧
    (∀ m : Movie, (updateMovie seedMovies unknownRequest).1.body ≠ Payload.movie m) ∧
    (updateMovie seedMovies unknownRequest).1.status = 200 :=
  ⟨by decide, updateMovie_unknown seedMovies unknownRequest (by decide)⟩

/-- C9: when some record of the collection has the path id, `updateMovie`
responds with the single record whose id is the path id and whose isbn, title
and director are those of the decoded body, whatever id the body carries; on
the seed collection, id "1" with body isbn "NEW", title "NewTitle" gives id
"1", isbn "NEW", title "NewTitle". -/
theorem updateMovie_existing_response (c : List Movie) (r : Request)
    (h : ∃ m ∈ c, m.ID = r.id) :
    (updateMovie c r).1 = jsonResponse (Payload.movie
        (Movie.mk r.id r.body.value.ISBN r.body.value.Title r.body.value.Director)) ∧
    ∀ (bodyId : String) (err : Bool),
      (updateMovie seedMovies
        { id := "1",
          body := { value := { ID := bodyId, ISBN := "NEW", Title := "NewTitle",
                               Director := none },
                    err := err } }).1
        = jsonResponse (Payload.movie
            { ID := "1", ISBN := "NEW", Title := "NewTitle", Director := none }) := by
  refine ⟨?_, fun _ _ => rfl⟩
  obtain ⟨pre, x, post, hc, hx, hpre⟩ := exists_first_split r.id c h
  have hl := updateMovieLoop_found r x post hx pre [] hpre
  simp only [List.nil_append, List.length_nil] at hl
  rw [hc, updateMovie, hl]

theorem updateMovie_existing_response_witness :
    (∃ m ∈ dupMovies, m.ID = sampleRequest.id) ∧
    (updateMovie dupMovies sampleRequest).1 = jsonResponse (Payload.movie
      { ID := "1", ISBN := "NEW", Title := "NewTitle", Director := none }) :=
  ⟨by decide, (updateMovie_existing_response dupMovies sampleRequest (by decide)).1⟩

/-- C10: when no record of the collection has the path id, `deleteMovie`
leaves the collection as it was and responds with it. -/
theorem deleteMovie_unknown (c : List Movie) (r : Request) (h : ∀ m ∈ c, m.ID ≠ r.id) :
    (deleteMovie c r).2 = c ∧ (deleteMovie c r).1 = jsonResponse (Payload.movies c) := by
  have hl := deleteMovieLoop_absent c r.id c 0 h
  have e : deleteMovie c r = (jsonResponse (Payload.movies c), c) := by
    simp only [deleteMovie, hl]
  rw [e]
  exact ⟨rfl, rfl⟩

theorem deleteMovie_unknown_witness :
    (∀ m ∈ seedMovies, m.ID ≠ unknownRequest.id) ∧
    (deleteMovie seedMovies unknownRequest).2 = seedMovies ∧
    (deleteMovie seedMovies unknownRequest).1 = jsonResponse (Payload.movies seedMovies) :=
  ⟨by decide, deleteMovie_unknown seedMovies unknownRequest (by decide)⟩

/-! ## Handlers on a split collection -/

theorem deleteMovie_split (pre : List Movie) (x : Movie) (post : List Movie) (r : Request)
    (hx : x.ID = r.id) (hpre : ∀ y ∈ pre, y.ID ≠ r.id) :
    deleteMovie (pre ++ x :: post) r
      = (jsonResponse (Payload.movies (pre ++ post)), pre ++ post) := by
  have hl := deleteMovieLoop_found r.id x post hx pre [] hpre
  simp only [List.nil_append, List.length_nil] at hl
  simp only [deleteMovie, hl]

theorem deleteMovie_absent_eq (c : List Movie) (r : Request) (h : ∀ m ∈ c, m.ID ≠ r.id) :
    deleteMovie c r = (jsonResponse (Payload.movies c), c) := by
  have hl := deleteMovieLoop_absent c r.id c 0 h
  simp only [deleteMovie, hl]

theorem updateMovie_split (pre : List Movie) (x : Movie) (post : List Movie) (r : Request)
    (hx : x.ID = r.id) (hpre : ∀ y ∈ pre, y.ID ≠ r.id) :
    updateMovie (pre ++ x :: post) r
      = (jsonResponse (Payload.movie { r.body.value with ID := r.id }),
          pre ++ post ++ [{ r.body.value with ID := r.id }]) := by
  have hl := updateMovieLoop_found r x post hx pre [] hpre
  simp only [List.nil_append, List.length_nil] at hl
  rw [updateMovie, hl]

theorem updateMovie_absent_eq (c : List Movie) (r : Request) (h : ∀ m ∈ c, m.ID ≠ r.id) :
    updateMovie c r = (jsonResponse (Payload.movies c), c) :=
  updateMovieLoop_absent c r c 0 h

theorem getMovie_split (pre : List Movie) (x : Movie) (post : List Movie) (r : Request)
    (hx : x.ID = r.id) (hpre : ∀ y ∈ pre, y.ID ≠ r.id) :
    getMovie (pre ++ x :: post) r
      = (jsonResponse (Payload.movie x), pre ++ x :: post) := by
  have hl := getMovieLoop_found r.id x post hx pre hpre
  simp only [getMovie, hl]

theorem getMovie_absent_eq (c : List Movie) (r : Request) (h : ∀ m ∈ c, m.ID ≠ r.id) :
    getMovie c r = (jsonResponse (Payload.movie zeroMovie), c) := by
  have hl := getMovieLoop_absent r.id c h
  simp only [getMovie, hl]

/-- Either no record has the id, or the collection splits at the first one
that has it. -/
theorem absent_or_split (id : String) (c : List Movie) :
    (∀ m ∈ c, m.ID ≠ id) ∨
      ∃ pre x post, c = pre ++ x :: post ∧ x.ID = id ∧ ∀ y ∈ pre, y.ID ≠ id := by
  by_cases h : ∃ m ∈ c, m.ID = id
  · exact Or.inr (exists_first_split id c h)
  · left
    intro m hm he
    exact h ⟨m, hm, he⟩

theorem idCount_eq_zero (id : String) (c : List Movie) :
    idCount id c = 0 ↔ ∀ m ∈ c, m.ID ≠ id := by
  simp [idCount, List.countP_eq_zero]

theorem idCount_split (id : String) (pre : List Movie) (x : Movie) (post : List Movie)
    (hx : x.ID = id) (hpre : ∀ y ∈ pre, y.ID ≠ id) :
    idCount id (pre ++ x :: post) = idCount id post + 1 := by
  have h0 := (idCount_eq_zero id pre).mpr hpre
  simp only [idCount] at h0
  simp [idCount, List.countP_append, List.countP_cons, h0, hx]

/-- The ids after an Update are the ids before it, reordered. -/
theorem updateMovie_ids_perm (c : List Movie) (r : Request) :
    ((updateMovie c r).2.map Movie.ID).Perm (c.map Movie.ID) := by
  rcases absent_or_split r.id c with h | ⟨pre, x, post, hc, hx, hpre⟩
  · rw [updateMovie_absent_eq c r h]
  · rw [hc, updateMovie_split pre x post r hx hpre]
    simp only [List.map_append, List.map_cons, List.map_nil, hx, List.append_assoc]
    exact List.Perm.append_left _ (List.perm_append_singleton _ _)

/-- What a Delete leaves is a sublist of what it found. -/
theorem deleteMovie_sublist (c : List Movie) (r : Request) :
    List.Sublist (deleteMovie c r).2 c := by
  rcases absent_or_split r.id c with h | ⟨pre, x, post, hc, hx, hpre⟩
  · rw [deleteMovie_absent_eq c r h]
  · rw [hc, deleteMovie_split pre x post r hx hpre]
    exact List.Sublist.append_left (List.sublist_cons_self x post) pre

theorem idCount_append (id : String) (a b : List Movie) :
    idCount id (a ++ b) = idCount id a + idCount id b := by
  simp [idCount, List.countP_append]

theorem idCount_pos (id : String) (c : List Movie) :
    0 < idCount id c ↔ ∃ m ∈ c, m.ID = id := by
  simp [idCount, List.countP_pos_iff]

/-- A Delete lowers the number of records of its id by one, unless there
are none. -/
theorem idCount_deleteMovie (c : List Movie) (r : Request) :
    idCount r.id (deleteMovie c r).2 = idCount r.id c - 1 := by
  rcases absent_or_split r.id c with h | ⟨pre, x, post, hc, hx, hpre⟩
  · rw [deleteMovie_absent_eq c r h, (idCount_eq_zero r.id c).mpr h]
  · rw [hc, deleteMovie_split pre x post r hx hpre, idCount_split r.id pre x post hx hpre,
      idCount_append, (idCount_eq_zero r.id pre).mpr hpre]
    omega

theorem deleteMovie_length (c : List Movie) (r : Request) (h : 0 < idCount r.id c) :
    (deleteMovie c r).2.length + 1 = c.length := by
  obtain ⟨pre, x, post, hc, hx, hpre⟩ := exists_first_split r.id c ((idCount_pos r.id c).mp h)
  rw [hc, deleteMovie_split pre x post r hx hpre]
  simp only [List.length_append, List.length_cons]
  omega

theorem getMovie_snd (c : List Movie) (r : Request) : (getMovie c r).2 = c := by
  unfold getMovie
  split <;> rfl

theorem updateMovieLoop_withBodyId (movies : List Movie) (r : Request) (f : String → String) :
    ∀ (rest : List Movie) (index : Nat),
      updateMovieLoop movies (r.withBodyId f) rest index = updateMovieLoop movies r rest index := by
  intro rest
  induction rest with
  | nil => intro index; rfl
  | cons a t ih =>
    intro index
    have hid : (r.withBodyId f).id = r.id := rfl
    have hisbn : (r.withBodyId f).body.value.ISBN = r.body.value.ISBN := rfl
    have htitle : (r.withBodyId f).body.value.Title = r.body.value.Title := rfl
    have hdir : (r.withBodyId f).body.value.Director = r.body.value.Director := rfl
    by_cases ha : a.ID = r.id
    · simp only [updateMovieLoop, hid, hisbn, htitle, hdir, ha, if_true]
    · simp only [updateMovieLoop, hid, ha, if_false]
      exact ih (index + 1)

/-- No handler reads the id carried by the request body. -/
theorem serve_withBodyId (c : List Movie) (f : String → String) (k : Call) :
    serve c (k.withBodyId f) = serve c k := by
  cases k with
  | list q => rfl
  | get q => rfl
  | create q n => rfl
  | update q => exact updateMovieLoop_withBodyId c q f c 0
  | delete q => rfl

theorem serveAll_withBodyId (f : String → String) :
    ∀ (calls : List Call) (c : List Movie),
      serveAll c (calls.map (Call.withBodyId f)) = serveAll c calls := by
  intro calls
  induction calls with
  | nil => intro c; rfl
  | cons k t ih =>
    intro c
    simp only [List.map_cons, serveAll, serve_withBodyId]
    exact ih _

/-- Every id present after a call was present before it, or is the text of
the integer drawn by that call, a Create. -/
theorem serve_ids (c : List Movie) (k : Call) :
    ∀ m ∈ (serve c k).2,
      (∃ old ∈ c, old.ID = m.ID) ∨ ∃ r n, k = Call.create r n ∧ m.ID = Itoa n := by
  intro m hm
  cases k with
  | list q => exact Or.inl ⟨m, hm, rfl⟩
  | get q =>
    have e : (serve c (Call.get q)).2 = c := getMovie_snd c q
    rw [e] at hm
    exact Or.inl ⟨m, hm, rfl⟩
  | create q n =>
    have e : (serve c (Call.create q n)).2 = c ++ [{ q.body.value with ID := Itoa n }] := rfl
    rw [e, List.mem_append, List.mem_singleton] at hm
    rcases hm with hm | hm
    · exact Or.inl ⟨m, hm, rfl⟩
    · right
      exact ⟨q, n, rfl, by rw [hm]⟩
  | update q =>
    left
    have hmem : m.ID ∈ (updateMovie c q).2.map Movie.ID := List.mem_map_of_mem Movie.ID hm
    have hmem2 := (List.Perm.mem_iff (updateMovie_ids_perm c q)).mp hmem
    obtain ⟨old, hold, he⟩ := List.mem_map.mp hmem2
    exact ⟨old, hold, he⟩
  | delete q =>
    exact Or.inl ⟨m, (deleteMovie_sublist c q).subset hm, rfl⟩

/-- A property of ids that holds of the collection and of the text of every
integer drawn by a Create holds after the calls. -/
theorem serveAll_ids (allowed : String → Prop) :
    ∀ (calls : List Call) (c : List Movie), (∀ m ∈ c, allowed m.ID) →
      (∀ r n, Call.create r n ∈ calls → allowed (Itoa n)) →
      ∀ m ∈ serveAll c calls, allowed m.ID := by
  intro calls
  induction calls with
  | nil => intro c hc _ m hm; exact hc m hm
  | cons k t ih =>
    intro c hc hcalls m hm
    apply ih (serve c k).2 _ (fun r n hmem => hcalls r n (List.mem_cons_of_mem k hmem)) m hm
    intro m2 hm2
    rcases serve_ids c k m2 hm2 with ⟨old, hold, he⟩ | ⟨r, n, hk, he⟩
    · rw [← he]; exact hc old hold
    · rw [he]; exact hcalls r n (by rw [hk]; exact List.mem_cons_self _ _)

/-! ## Claims on sequences of operations and invariants -/

/-- C11 (as stated, refuted): after a Create on the seed collection has drawn
1, two records carry id "1"; a second Delete of "1" removes the second of
them, so it is not a no-op. -/
theorem deleteMovie_twice_differs :
    ¬ ((deleteMovie (deleteMovie (createMovie seedMovies unknownRequest 1).2 sampleRequest).2
          sampleRequest).2
        = (deleteMovie (createMovie seedMovies unknownRequest 1).2 sampleRequest).2 ∧
       (deleteMovie (deleteMovie (createMovie seedMovies unknownRequest 1).2 sampleRequest).2
          sampleRequest).1
        = (deleteMovie (createMovie seedMovies unknownRequest 1).2 sampleRequest).1) := by
  decide

/-- C11 (amended): when at most one record of the collection has the path
id, a second `deleteMovie` with that id leaves the collection and the response
of the first; when two or more records have it, the second Delete removes one
more record. -/
theorem deleteMovie_twice (c : List Movie) (r : Request) (h : idCount r.id c ≤ 1) :
    ((deleteMovie (deleteMovie c r).2 r).2 = (deleteMovie c r).2 ∧
      (deleteMovie (deleteMovie c r).2 r).1 = (deleteMovie c r).1) ∧
    ∀ c2 : List Movie, 2 ≤ idCount r.id c2 →
      (deleteMovie (deleteMovie c2 r).2 r).2.length + 1 = (deleteMovie c2 r).2.length := by
  constructor
  · have h0 : idCount r.id (deleteMovie c r).2 = 0 := by
      rw [idCount_deleteMovie]; omega
    have habs := (idCount_eq_zero r.id _).mp h0
    rw [deleteMovie_absent_eq _ r habs]
    exact ⟨rfl, rfl⟩
  · intro c2 h2
    apply deleteMovie_length
    rw [idCount_deleteMovie]
    omega

theorem deleteMovie_twice_witness :
    idCount sampleRequest.id seedMovies ≤ 1 ∧
    ((deleteMovie (deleteMovie seedMovies sampleRequest).2 sampleRequest).2
        = (deleteMovie seedMovies sampleRequest).2 ∧
      (deleteMovie (deleteMovie seedMovies sampleRequest).2 sampleRequest).1
        = (deleteMovie seedMovies sampleRequest).1) ∧
    2 ≤ idCount sampleRequest.id dupMovies ∧
    (deleteMovie (deleteMovie dupMovies sampleRequest).2 sampleRequest).2.length + 1
      = (deleteMovie dupMovies sampleRequest).2.length :=
  ⟨by decide, (deleteMovie_twice seedMovies sampleRequest (by decide)).1, by decide,
    (deleteMovie_twice seedMovies sampleRequest (by decide)).2 dupMovies (by decide)⟩

/-- C12: `getMovies` responds with exactly the collection: every record, in
the collection order, nothing dropped. -/
theorem getMovies_returns_all (c : List Movie) (r : Request) :
    (getMovies c r).1 = jsonResponse (Payload.movies c) ∧
      (getMovies c r).1.body = Payload.movies c ∧
      (getMovies c r).1.status = 200 :=
  ⟨rfl, rfl, rfl⟩

/-- C13: `getMovies` and `getMovie` leave the collection as it was; a routed
call that changes the collection is a Create, an Update or a Delete. -/
theorem reads_leave_collection (c : List Movie) (r : Request) :
    (getMovies c r).2 = c ∧ (getMovie c r).2 = c ∧
      ∀ k : Call, (serve c k).2 = c ∨ k.isWrite = true := by
  refine ⟨rfl, getMovie_snd c r, ?_⟩
  intro k
  cases k with
  | list q => exact Or.inl rfl
  | get q => exact Or.inl (getMovie_snd c q)
  | create q n => exact Or.inr rfl
  | update q => exact Or.inr rfl
  | delete q => exact Or.inr rfl

/-- C14: on a collection whose ids are pairwise distinct, `deleteMovie` and
`updateMovie` leave ids pairwise distinct, and `createMovie` does so exactly
when the decimal text of the drawn integer is not yet an id of the
collection. -/
theorem ids_nodup_preserved (c : List Movie) (r : Request) (n : Int)
    (h : (c.map Movie.ID).Nodup) :
    ((deleteMovie c r).2.map Movie.ID).Nodup ∧
      ((updateMovie c r).2.map Movie.ID).Nodup ∧
      (((createMovie c r n).2.map Movie.ID).Nodup ↔ Itoa n ∉ c.map Movie.ID) := by
  refine ⟨?_, ?_, ?_⟩
  · exact List.Nodup.sublist (List.Sublist.map Movie.ID (deleteMovie_sublist c r)) h
  · exact (List.Perm.nodup_iff (updateMovie_ids_perm c r)).mpr h
  · have e : (createMovie c r n).2.map Movie.ID = c.map Movie.ID ++ [Itoa n] := by
      simp [createMovie]
    rw [e, List.nodup_append]
    constructor
    · intro hh hm
      exact hh.2.2 hm (List.mem_singleton_self _)
    · intro hh
      refine ⟨h, List.nodup_singleton _, ?_⟩
      intro a ha hb
      rw [List.mem_singleton] at hb
      subst hb
      exact hh ha

theorem ids_nodup_preserved_witness :
    (seedMovies.map Movie.ID).Nodup ∧
    ((deleteMovie seedMovies sampleRequest).2.map Movie.ID).Nodup ∧
    ((updateMovie seedMovies sampleRequest).2.map Movie.ID).Nodup ∧
    (((createMovie seedMovies sampleRequest 3).2.map Movie.ID).Nodup
      ↔ Itoa 3 ∉ seedMovies.map Movie.ID) :=
  ⟨by decide, ids_nodup_preserved seedMovies sampleRequest 3 (by decide)⟩

/-- C15: in every state reached from the seed collection by a sequence of
routed requests whose Creates draw integers in [0, 1000000), each id is a seed
id or the decimal text of the integer drawn by a Create of the sequence; the
state does not depend on the ids carried by request bodies; and every id
present after an Update was present before it. -/
theorem ids_server_assigned (calls : List Call) (h : ∀ k ∈ calls, k.drawInRange = true) :
    (∀ m ∈ serveAll seedMovies calls,
        m.ID ∈ ["1", "2", "3", "4"] ∨
          ∃ r n, Call.create r n ∈ calls ∧ 0 ≤ n ∧ n < 1000000 ∧ m.ID = Itoa n) ∧
    (∀ f : String → String,
        serveAll seedMovies (calls.map (Call.withBodyId f)) = serveAll seedMovies calls) ∧
    (∀ (c : List Movie) (r : Request), ∀ m ∈ (updateMovie c r).2, ∃ old ∈ c, old.ID = m.ID) := by
  refine ⟨?_, fun f => serveAll_withBodyId f calls seedMovies, ?_⟩
  · apply serveAll_ids (fun s => s ∈ ["1", "2", "3", "4"] ∨
        ∃ r n, Call.create r n ∈ calls ∧ 0 ≤ n ∧ n < 1000000 ∧ s = Itoa n) calls seedMovies
    · intro m hm
      left
      have hall : ∀ m ∈ seedMovies, m.ID ∈ ["1", "2", "3", "4"] := by decide
      exact hall m hm
    · intro r n hmem
      right
      have hr := h _ hmem
      simp only [Call.drawInRange, decide_eq_true_eq] at hr
      exact ⟨r, n, hmem, hr.1, hr.2, rfl⟩
  · intro c r m hm
    rcases serve_ids c (Call.update r) m hm with hold | ⟨q, n, hk, _⟩
    · exact hold
    · cases hk

theorem ids_server_assigned_witness :
    (∀ k ∈ sampleCalls, k.drawInRange = true) ∧
    (∀ m ∈ serveAll seedMovies sampleCalls,
        m.ID ∈ ["1", "2", "3", "4"] ∨
          ∃ r n, Call.create r n ∈ sampleCalls ∧ 0 ≤ n ∧ n < 1000000 ∧ m.ID = Itoa n) ∧
    (serveAll seedMovies sampleCalls).map Movie.ID = ["2", "3", "4", "42", "1"] :=
  ⟨by decide, (ids_server_assigned sampleCalls (by decide)).1, by decide⟩

/-- C16: before any request is served the collection is the four seed
records, in order, with ids "1", "2", "3", "4", pairwise distinct, each with a
non-empty isbn and title and a director that is set. -/
theorem seedMovies_startup :
    serveAll seedMovies [] = seedMovies ∧
      seedMovies.length = 4 ∧
      seedMovies.map Movie.ID = ["1", "2", "3", "4"] ∧
      (seedMovies.map Movie.ID).Nodup ∧
      ∀ m ∈ seedMovies, m.ISBN ≠ "" ∧ m.Title ≠ "" ∧ m.Director ≠ none := by
  decide

/-- C17: when some record has the path id and decoding the body fails and
leaves the record zero-valued, `updateMovie` still answers under the default
success status, removes the first record with that id, and appends and returns
the record with the path id, empty isbn and title and no director. -/
theorem updateMovie_decode_failure (c : List Movie) (r : Request)
    (h : ∃ m ∈ c, m.ID = r.id) (_herr : r.body.err = true) (hval : r.body.value = zeroMovie) :
    ∃ pre x post, c = pre ++ x :: post ∧ x.ID = r.id ∧ (∀ y ∈ pre, y.ID ≠ r.id) ∧
      (updateMovie c r).2 = pre ++ post ++ [Movie.mk r.id "" "" none] ∧
      (updateMovie c r).1 = jsonResponse (Payload.movie (Movie.mk r.id "" "" none)) ∧
      (updateMovie c r).1.status = 200 := by
  obtain ⟨pre, x, post, hc, hx, hpre⟩ := exists_first_split r.id c h
  refine ⟨pre, x, post, hc, hx, hpre, ?_⟩
  rw [hc, updateMovie_split pre x post r hx hpre, hval]
  exact ⟨rfl, rfl, rfl⟩

theorem updateMovie_decode_failure_witness :
    (∃ m ∈ seedMovies, m.ID = failedRequest.id) ∧
    (updateMovie seedMovies failedRequest).1
      = jsonResponse (Payload.movie (Movie.mk "1" "" "" none)) ∧
    (updateMovie seedMovies failedRequest).2.map (fun m => (m.ID, m.ISBN, m.Title, m.Director))
      = [ ("2", "454555", "The Lord of the Rings", some (Director.mk "Peter" "Jackson")),
          ("3", "123456", "Inception", some (Director.mk "Christopher" "Nolan")),
          ("4", "654321", "The Matrix", some (Director.mk "Lana" "Wachowski")),
          ("1", "", "", none) ] ∧
    failedRequest.body.err = true ∧ failedRequest.body.value = zeroMovie ∧
    ∃ pre x post, seedMovies = pre ++ x :: post ∧ x.ID = failedRequest.id ∧
      (∀ y ∈ pre, y.ID ≠ failedRequest.id) ∧
      (updateMovie seedMovies failedRequest).2
        = pre ++ post ++ [Movie.mk failedRequest.id "" "" none] ∧
      (updateMovie seedMovies failedRequest).1
        = jsonResponse (Payload.movie (Movie.mk failedRequest.id "" "" none)) ∧
      (updateMovie seedMovies failedRequest).1.status = 200 :=
  ⟨by decide, by decide, by decide, rfl, rfl,
    updateMovie_decode_failure seedMovies failedRequest (by decide) rfl rfl⟩

/-- C18 (as stated, refuted): for id "5" the response of `getMovie` on the
seed collection, where no record has that id, differs from its response on a
collection holding a record with id "5", empty isbn and title and no
director: the latter carries id "5". -/
theorem getMovie_absent_vs_empty_differs :
    (∀ m ∈ seedMovies, m.ID ≠ "5") ∧
    (Movie.mk "5" "" "" none) ∈ emptyRecordMovies ∧
    (getMovie seedMovies { unknownRequest with id := "5" }).1
      ≠ (getMovie emptyRecordMovies { unknownRequest with id := "5" }).1 := by
  decide

/-- C18 (amended): the response of `getMovie` where no record has the path id
is the zero-valued Movie, its response where the first record with the path id
has empty isbn and title and no director is that record; the two agree in
isbn, title and director and are equal exactly when the path id is the empty
string. -/
theorem getMovie_absent_vs_empty (c1 pre post : List Movie) (r : Request)
    (h1 : ∀ m ∈ c1, m.ID ≠ r.id) (hpre : ∀ y ∈ pre, y.ID ≠ r.id) :
    (getMovie c1 r).1 = jsonResponse (Payload.movie (Movie.mk "" "" "" none)) ∧
    (getMovie (pre ++ Movie.mk r.id "" "" none :: post) r).1
      = jsonResponse (Payload.movie (Movie.mk r.id "" "" none)) ∧
    ((getMovie c1 r).1 = (getMovie (pre ++ Movie.mk r.id "" "" none :: post) r).1
      ↔ r.id = "") := by
  have e1 := getMovie_absent_eq c1 r h1
  have e2 := getMovie_split pre (Movie.mk r.id "" "" none) post r rfl hpre
  rw [e1, e2]
  refine ⟨rfl, rfl, ?_⟩
  simp only [jsonResponse, zeroMovie, Response.mk.injEq, Payload.movie.injEq, Movie.mk.injEq,
    true_and, and_true]
  exact eq_comm

theorem getMovie_absent_vs_empty_witness :
    (∀ m ∈ seedMovies, m.ID ≠ "5") ∧
    (getMovie seedMovies { unknownRequest with id := "5" }).1
      = jsonResponse (Payload.movie (Movie.mk "" "" "" none)) ∧
    (getMovie (seedMovies ++ Movie.mk "5" "" "" none :: []) { unknownRequest with id := "5" }).1
      = jsonResponse (Payload.movie (Movie.mk "5" "" "" none)) ∧
    ((getMovie seedMovies { unknownRequest with id := "5" }).1
        = (getMovie (seedMovies ++ Movie.mk "5" "" "" none :: [])
            { unknownRequest with id := "5" }).1
      ↔ "5" = "") :=
  ⟨by decide,
    getMovie_absent_vs_empty seedMovies seedMovies [] { unknownRequest with id := "5" }
      (by decide) (by decide)⟩

/-- C19: when exactly one record has the path id, a `getMovie` of that id
after `updateMovie` returns the decoded body with its id set to the path id;
when a second record has the id, it returns that older record. -/
theorem updateMovie_then_getMovie (c : List Movie) (r g : Request) (hg : g.id = r.id)
    (h : idCount r.id c = 1) :
    (getMovie (updateMovie c r).2 g).1 = jsonResponse (Payload.movie
        (Movie.mk r.id r.body.value.ISBN r.body.value.Title r.body.value.Director)) ∧
    ∀ (pre mid post : List Movie) (x y : Movie), x.ID = r.id → y.ID = r.id →
      (∀ m ∈ pre, m.ID ≠ r.id) → (∀ m ∈ mid, m.ID ≠ r.id) →
      (getMovie (updateMovie (pre ++ x :: (mid ++ y :: post)) r).2 g).1
        = jsonResponse (Payload.movie y) := by
  constructor
  · have hpos : 0 < idCount r.id c := by omega
    obtain ⟨pre, x, post, hc, hx, hpre⟩ := exists_first_split r.id c ((idCount_pos r.id c).mp hpos)
    have hpost : ∀ m ∈ post, m.ID ≠ r.id := by
      apply (idCount_eq_zero r.id post).mp
      rw [hc, idCount_split r.id pre x post hx hpre] at h
      omega
    have hboth : ∀ m ∈ pre ++ post, m.ID ≠ g.id := by
      intro m hm
      rw [hg]
      rcases List.mem_append.mp hm with hm | hm
      · exact hpre m hm
      · exact hpost m hm
    rw [hc, updateMovie_split pre x post r hx hpre]
    have e := getMovie_split (pre ++ post) { r.body.value with ID := r.id } [] g hg.symm hboth
    rw [e]
  · intro pre mid post x y hx hy hpre hmid
    rw [updateMovie_split pre x (mid ++ y :: post) r hx hpre]
    have hboth : ∀ m ∈ pre ++ mid, m.ID ≠ g.id := by
      intro m hm
      rw [hg]
      rcases List.mem_append.mp hm with hm | hm
      · exact hpre m hm
      · exact hmid m hm
    have e := getMovie_split (pre ++ mid) y (post ++ [{ r.body.value with ID := r.id }]) g
      (by rw [hy, hg]) hboth
    have el : pre ++ (mid ++ y :: post) ++ [{ r.body.value with ID := r.id }]
        = pre ++ mid ++ y :: (post ++ [{ r.body.value with ID := r.id }]) := by
      simp only [List.append_assoc, List.cons_append]
    rw [el, e]

theorem updateMovie_then_getMovie_witness :
    sampleRequest.id = sampleRequest.id ∧ idCount sampleRequest.id seedMovies = 1 ∧
    (getMovie (updateMovie seedMovies sampleRequest).2 sampleRequest).1
      = jsonResponse (Payload.movie (Movie.mk "1" "NEW" "NewTitle" none)) ∧
    (getMovie (updateMovie dupMovies sampleRequest).2 sampleRequest).1
      = jsonResponse (Payload.movie (Movie.mk "1" "d" "D" none)) :=
  ⟨rfl, by decide, (updateMovie_then_getMovie seedMovies sampleRequest sampleRequest rfl
    (by decide)).1, by decide⟩

/-- C20: when at most one record has the path id, a `getMovie` of that id
after `deleteMovie` returns the zero-valued Movie; when two or more records
have it, the `getMovie` still returns a record of the collection with that
id. -/
theorem deleteMovie_then_getMovie (c : List Movie) (r g : Request) (hg : g.id = r.id) :
    (idCount r.id c ≤ 1 →
      (getMovie (deleteMovie c r).2 g).1 = jsonResponse (Payload.movie zeroMovie)) ∧
    (2 ≤ idCount r.id c →
      ∃ m ∈ c, m.ID = r.id ∧
        (getMovie (deleteMovie c r).2 g).1 = jsonResponse (Payload.movie m)) := by
  constructor
  · intro h
    have h0 : idCount g.id (deleteMovie c r).2 = 0 := by
      rw [hg, idCount_deleteMovie]; omega
    rw [getMovie_absent_eq _ g ((idCount_eq_zero g.id _).mp h0)]
  · intro h
    have hpos : 0 < idCount g.id (deleteMovie c r).2 := by
      rw [hg, idCount_deleteMovie]; omega
    obtain ⟨pre, x, post, hc, hx, hpre⟩ :=
      exists_first_split g.id _ ((idCount_pos g.id _).mp hpos)
    refine ⟨x, ?_, by rw [hx, hg], ?_⟩
    · apply (deleteMovie_sublist c r).subset
      rw [hc]
      exact List.mem_append_right pre (List.mem_cons_self x post)
    · rw [hc, getMovie_split pre x post g hx hpre]

theorem deleteMovie_then_getMovie_witness :
    sampleRequest.id = sampleRequest.id ∧
    idCount sampleRequest.id seedMovies ≤ 1 ∧
    (getMovie (deleteMovie seedMovies sampleRequest).2 sampleRequest).1
      = jsonResponse (Payload.movie zeroMovie) ∧
    2 ≤ idCount sampleRequest.id dupMovies ∧
    ∃ m ∈ dupMovies, m.ID = sampleRequest.id ∧
      (getMovie (deleteMovie dupMovies sampleRequest).2 sampleRequest).1
        = jsonResponse (Payload.movie m) :=
  ⟨rfl, by decide,
    (deleteMovie_then_getMovie seedMovies sampleRequest sampleRequest rfl).1 (by decide),
    by decide,
    (deleteMovie_then_getMovie dupMovies sampleRequest sampleRequest rfl).2 (by decide)⟩

/-! ## Lookups after writes -/

/-- The scan of `getMovie` is a search for the first record with the id. -/
theorem getMovieLoop_eq_find (id : String) (c : List Movie) :
    getMovieLoop id c = c.find? (fun m => decide (m.ID = id)) := by
  induction c with
  | nil => rfl
  | cons a t ih =>
    by_cases ha : a.ID = id
    · simp [getMovieLoop, ha]
    · simp [getMovieLoop, ha, ih]

theorem getMovie_fst (c : List Movie) (g : Request) :
    (getMovie c g).1 = jsonResponse (Payload.movie ((getMovieLoop g.id c).getD zeroMovie)) := by
  unfold getMovie
  split <;> rename_i h <;> rw [h] <;> rfl

/-- Removing or appending records of another id does not change what the
scan finds. -/
theorem getMovieLoop_other (id : String) (pre post : List Movie) (x y : Movie)
    (hx : x.ID ≠ id) (hy : y.ID ≠ id) :
    getMovieLoop id (pre ++ post) = getMovieLoop id (pre ++ x :: post) ∧
      getMovieLoop id (pre ++ [y]) = getMovieLoop id pre := by
  simp [getMovieLoop_eq_find, List.find?_append, List.find?_cons, hx, hy]

/-- C21: when the decimal text of the drawn integer is not yet an id of the
collection, `createMovie` followed by `deleteMovie` of the returned id leaves
the collection as it was before the Create; when the id is already present,
the Delete removes the older record and the new one stays last. -/
theorem createMovie_then_deleteMovie (c : List Movie) (r : Request) (n : Int)
    (h : Itoa n ∉ c.map Movie.ID) :
    (∃ m : Movie, (createMovie c r n).1 = jsonResponse (Payload.movie m) ∧
      ∀ d : Request, d.id = m.ID →
        (deleteMovie (createMovie c r n).2 d).2 = c ∧
        (deleteMovie (createMovie c r n).2 d).1 = jsonResponse (Payload.movies c)) ∧
    ∀ (pre post : List Movie) (x : Movie) (d : Request), x.ID = Itoa n → d.id = Itoa n →
      (∀ y ∈ pre, y.ID ≠ Itoa n) →
      (deleteMovie (createMovie (pre ++ x :: post) r n).2 d).2
        = pre ++ post ++ [{ r.body.value with ID := Itoa n }] := by
  constructor
  · refine ⟨{ r.body.value with ID := Itoa n }, rfl, ?_⟩
    intro d hd
    have hd2 : d.id = Itoa n := hd
    have habs : ∀ y ∈ c, y.ID ≠ d.id := by
      intro y hy he
      apply h
      rw [← hd2, ← he]
      exact List.mem_map_of_mem Movie.ID hy
    have e := deleteMovie_split c { r.body.value with ID := Itoa n } [] d hd2.symm habs
    have ec : (createMovie c r n).2 = c ++ [{ r.body.value with ID := Itoa n }] := rfl
    rw [ec, e, List.append_nil]
    exact ⟨rfl, rfl⟩
  · intro pre post x d hx hd hpre
    have ec : (createMovie (pre ++ x :: post) r n).2
        = pre ++ x :: (post ++ [{ r.body.value with ID := Itoa n }]) := by
      simp [createMovie]
    rw [ec, deleteMovie_split pre x _ d (by rw [hx, hd]) (by rw [hd]; exact hpre)]
    simp

theorem createMovie_then_deleteMovie_witness :
    Itoa 42 ∉ seedMovies.map Movie.ID ∧
    (∃ m : Movie, (createMovie seedMovies sampleRequest 42).1 = jsonResponse (Payload.movie m) ∧
      ∀ d : Request, d.id = m.ID →
        (deleteMovie (createMovie seedMovies sampleRequest 42).2 d).2 = seedMovies ∧
        (deleteMovie (createMovie seedMovies sampleRequest 42).2 d).1
          = jsonResponse (Payload.movies seedMovies)) ∧
    (deleteMovie (createMovie seedMovies sampleRequest 1).2 sampleRequest).2.map
        (fun m => (m.ID, m.ISBN)) = [("2", "454555"), ("3", "123456"), ("4", "654321"), ("1", "NEW")] :=
  ⟨by decide, (createMovie_then_deleteMovie seedMovies sampleRequest 42 (by decide)).1,
    by decide⟩

/-- C22: for a write of one id and a lookup of another, `getMovie` responds
after `deleteMovie`, after `updateMovie` and after a `createMovie` that
assigns the written id as it responds before the write. -/
theorem getMovie_after_other_write (c : List Movie) (w g : Request) (n : Int)
    (h : w.id ≠ g.id) :
    (getMovie (deleteMovie c w).2 g).1 = (getMovie c g).1 ∧
    (getMovie (updateMovie c w).2 g).1 = (getMovie c g).1 ∧
    (Itoa n = w.id → (getMovie (createMovie c w n).2 g).1 = (getMovie c g).1) := by
  refine ⟨?_, ?_, ?_⟩
  · rcases absent_or_split w.id c with habs | ⟨pre, x, post, hc, hx, hpre⟩
    · rw [deleteMovie_absent_eq c w habs]
    · rw [hc, deleteMovie_split pre x post w hx hpre, getMovie_fst, getMovie_fst,
        (getMovieLoop_other g.id pre post x x (by rw [hx]; exact h) (by rw [hx]; exact h)).1]
  · rcases absent_or_split w.id c with habs | ⟨pre, x, post, hc, hx, hpre⟩
    · rw [updateMovie_absent_eq c w habs]
    · rw [hc, updateMovie_split pre x post w hx hpre, getMovie_fst, getMovie_fst,
        (getMovieLoop_other g.id (pre ++ post) [] x { w.body.value with ID := w.id }
          (by rw [hx]; exact h) h).2,
        (getMovieLoop_other g.id pre post x x (by rw [hx]; exact h) (by rw [hx]; exact h)).1]
  · intro hn
    have ec : (createMovie c w n).2 = c ++ [{ w.body.value with ID := Itoa n }] := rfl
    rw [ec, getMovie_fst, getMovie_fst,
      (getMovieLoop_other g.id c [] { w.body.value with ID := Itoa n }
        { w.body.value with ID := Itoa n } (by rw [hn]; exact h) (by rw [hn]; exact h)).2]

theorem getMovie_after_other_write_witness :
    sampleRequest.id ≠ "3" ∧
    (getMovie (deleteMovie dupMovies sampleRequest).2 { unknownRequest with id := "3" }).1
      = (getMovie dupMovies { unknownRequest with id := "3" }).1 ∧
    (getMovie (updateMovie dupMovies sampleRequest).2 { unknownRequest with id := "3" }).1
      = (getMovie dupMovies { unknownRequest with id := "3" }).1 ∧
    (Itoa 1 = sampleRequest.id →
      (getMovie (createMovie dupMovies sampleRequest 1).2 { unknownRequest with id := "3" }).1
        = (getMovie dupMovies { unknownRequest with id := "3" }).1) ∧
    (getMovie dupMovies { unknownRequest with id := "3" }).1
      = jsonResponse (Payload.movie { ID := "3", ISBN := "c", Title := "C", Director := none }) :=
  ⟨by decide,
    (getMovie_after_other_write dupMovies sampleRequest { unknownRequest with id := "3" } 1
      (by decide)).1,
    (getMovie_after_other_write dupMovies sampleRequest { unknownRequest with id := "3" } 1
      (by decide)).2.1,
    (getMovie_after_other_write dupMovies sampleRequest { unknownRequest with id := "3" } 1
      (by decide)).2.2,
    by decide⟩

end MoviesCrud

namespace GoServer

/-- C24: the `/hello` handler answers "Hello!" under the default success
status exactly when the path is "/hello" and the method is "GET"; any other
path gets status 404 with the message "404 not found.", and any other method
on "/hello" gets status 404 with the message "Method is not supported."
(`http.Error` ends the message with a newline). -/
theorem helloHandler_spec (r : HelloRequest) :
    (helloHandler r = { status := 200, body := "Hello!" }
      ↔ (r.Path = "/hello" ∧ r.Method = "GET")) ∧
    (r.Path ≠ "/hello" →
      helloHandler r = httpError "404 not found." 404 ∧
      helloHandler r = { status := 404, body := "404 not found.\n" }) ∧
    (r.Path = "/hello" → r.Method ≠ "GET" →
      helloHandler r = httpError "Method is not supported." 404 ∧
      helloHandler r = { status := 404, body := "Method is not supported.\n" }) := by
  have e1 : httpError "404 not found." 404 = { status := 404, body := "404 not found.\n" } := by
    decide
  have e2 : httpError "Method is not supported." 404
      = { status := 404, body := "Method is not supported.\n" } := by decide
  by_cases hp : r.Path = "/hello"
  · by_cases hm : r.Method = "GET"
    · simp [helloHandler, hp, hm]
    · simp [helloHandler, hp, hm, StatusNotFound, e2]
  · simp [helloHandler, hp, StatusNotFound, e1]

theorem helloHandler_spec_witness :
    ("/hello/" : String) ≠ "/hello" ∧
    (helloHandler { Path := "/hello/", Method := "GET" } = httpError "404 not found." 404 ∧
      helloHandler { Path := "/hello/", Method := "GET" }
        = { status := 404, body := "404 not found.\n" }) ∧
    helloHandler { Path := "/hello", Method := "get" }
      = { status := 404, body := "Method is not supported.\n" } ∧
    helloHandler { Path := "/hello", Method := "POST" }
      = { status := 404, body := "Method is not supported.\n" } ∧
    helloHandler { Path := "/hello", Method := "GET" } = { status := 200, body := "Hello!" } :=
  ⟨by decide, (helloHandler_spec { Path := "/hello/", Method := "GET" }).2.1 (by decide),
    by decide, by decide, by decide⟩

end GoServer

namespace Functions

/-! ## `findMax` and `findMaxSlice` -/

theorem findMaxLoop_ge (l : List Int) :
    ∀ max : Int, max ≤ findMaxLoop max l ∧ ∀ x ∈ l, x ≤ findMaxLoop max l := by
  induction l with
  | nil => intro max; exact ⟨le_refl _, by simp⟩
  | cons a t ih =>
    intro max
    by_cases ha : a > max
    · simp only [findMaxLoop, ha, if_true]
      obtain ⟨h1, h2⟩ := ih a
      refine ⟨by omega, ?_⟩
      intro x hx
      rcases List.mem_cons.mp hx with rfl | hx
      · exact h1
      · exact h2 x hx
    · simp only [findMaxLoop, ha, if_false]
      obtain ⟨h1, h2⟩ := ih max
      refine ⟨h1, ?_⟩
      intro x hx
      rcases List.mem_cons.mp hx with rfl | hx
      · omega
      · exact h2 x hx

theorem findMaxLoop_mem (l : List Int) :
    ∀ max : Int, findMaxLoop max l = max ∨ findMaxLoop max l ∈ l := by
  induction l with
  | nil => intro max; exact Or.inl rfl
  | cons a t ih =>
    intro max
    by_cases ha : a > max
    · simp only [findMaxLoop, ha, if_true]
      rcases ih a with h | h
      · right; rw [h]; exact List.mem_cons_self a t
      · right; exact List.mem_cons_of_mem a h
    · simp only [findMaxLoop, ha, if_false]
      rcases ih max with h | h
      · exact Or.inl h
      · right; exact List.mem_cons_of_mem a h

theorem findMaxSliceLoop_eq (l : List Int) :
    ∀ max : Int, findMaxSliceLoop max l = findMaxLoop max l := by
  induction l with
  | nil => intro max; rfl
  | cons a t ih =>
    intro max
    simp only [findMaxSliceLoop, findMaxLoop, ih]

/-- C27: on a non-empty list `findMax` returns an element of the list that
is at least every element, also when all are negative; on the empty list it
returns 0; `findMaxSlice` returns what `findMax` returns; on 3, 7, 2, 9, 1 the
result is 9. -/
theorem findMax_spec (numbers : List Int) :
    (numbers ≠ [] → findMax numbers ∈ numbers ∧ ∀ x ∈ numbers, x ≤ findMax numbers) ∧
    findMax [] = 0 ∧
    findMaxSlice numbers = findMax numbers ∧
    findMax [3, 7, 2, 9, 1] = 9 ∧
    findMax [-5, -2, -9] = -2 := by
  refine ⟨?_, rfl, ?_, by decide, by decide⟩
  · intro hne
    cases numbers with
    | nil => exact absurd rfl hne
    | cons a t =>
      constructor
      · rcases findMaxLoop_mem (a :: t) a with h | h
        · have e : findMax (a :: t) = a := h
          rw [e]; exact List.mem_cons_self a t
        · exact h
      · exact (findMaxLoop_ge (a :: t) a).2
  · cases numbers with
    | nil => rfl
    | cons a t => exact findMaxSliceLoop_eq (a :: t) a

theorem findMax_spec_witness :
    findMax [-4, -1, -7, -1] ∈ [-4, -1, -7, -1] ∧
    (∀ x ∈ [-4, -1, -7, -1], x ≤ findMax [-4, -1, -7, -1]) ∧
    findMax [-4, -1, -7, -1] = -1 ∧
    findMaxSlice [10, 5, 20, 15, 8] = 20 :=
  ⟨((findMax_spec [-4, -1, -7, -1]).1 (by decide)).1,
    ((findMax_spec [-4, -1, -7, -1]).1 (by decide)).2, by decide, by decide⟩

end Functions

namespace Functions

/-! ## `divide` -/

theorem wrap64_of_range (x : Int) (h1 : -9223372036854775808 ≤ x)
    (h2 : x ≤ 9223372036854775807) : wrap64 x = x := by
  unfold wrap64
  omega

/-- The truncated remainder is smaller in size than the divisor and has the
sign of the dividend. -/
theorem tmod_facts (a b : Int) (hb : b ≠ 0) :
    (Int.tmod a b).natAbs < b.natAbs ∧ (0 ≤ a → 0 ≤ Int.tmod a b) ∧
      (a ≤ 0 → Int.tmod a b ≤ 0) := by
  have hbpos : 0 < b.natAbs := Int.natAbs_pos.mpr hb
  cases a with
  | ofNat m =>
    cases b with
    | ofNat n =>
      have hn : 0 < n := by simpa using hbpos
      have := Nat.mod_lt m hn
      have hle := Nat.mod_le m n
      simp only [Int.tmod, Int.ofNat_eq_coe, Int.natAbs_ofNat]
      omega
    | negSucc n =>
      have := Nat.mod_lt m (Nat.succ_pos n)
      have hle := Nat.mod_le m n.succ
      simp only [Int.tmod, Int.ofNat_eq_coe, Int.natAbs_ofNat, Int.natAbs_negSucc]
      omega
  | negSucc m =>
    have hneg := Int.negSucc_lt_zero m
    cases b with
    | ofNat n =>
      have hn : 0 < n := by simpa using hbpos
      have := Nat.mod_lt (Nat.succ m) hn
      simp only [Int.tmod, Int.ofNat_eq_coe, Int.natAbs_ofNat, Int.natAbs_neg]
      omega
    | negSucc n =>
      have := Nat.mod_lt (Nat.succ m) (Nat.succ_pos n)
      simp only [Int.tmod, Int.ofNat_eq_coe, Int.natAbs_ofNat, Int.natAbs_neg, Int.natAbs_negSucc]
      omega

theorem tdiv_natAbs_le (a b : Int) : (Int.tdiv a b).natAbs ≤ a.natAbs := by
  rw [Int.natAbs_tdiv]
  exact Nat.div_le_self _ _

/-- The truncated quotient of two 64-bit integers is a 64-bit integer, except
for the most negative one divided by -1. -/
theorem tdiv_range (a b : Int)
    (ha1 : -9223372036854775808 ≤ a) (ha2 : a ≤ 9223372036854775807) (hb : b ≠ 0)
    (hcase : a ≠ -9223372036854775808 ∨ b ≠ -1) :
    -9223372036854775808 ≤ Int.tdiv a b ∧ Int.tdiv a b ≤ 9223372036854775807 := by
  obtain ⟨hr1, hr2, hr3⟩ := tmod_facts a b hb
  have hq := tdiv_natAbs_le a b
  have hsum := Int.tdiv_add_tmod a b
  by_cases h63 : Int.tdiv a b = 9223372036854775808
  · rw [h63] at hsum
    omega
  · omega

/-- C25: for 64-bit integers `a` and `b` with `b` not 0, `divide` returns a
quotient `q` and a remainder `r` with `a = q * b + r` in wrap-around
arithmetic, `|r| < |b|`, and `r` zero or of the sign of `a` (truncated
division); `divide 17 5` is `(3, 2)`; with `b = 0` no value is returned. -/
theorem divide_spec (a b : Int)
    (ha1 : -9223372036854775808 ≤ a) (ha2 : a ≤ 9223372036854775807)
    (hb1 : -9223372036854775808 ≤ b) (hb2 : b ≤ 9223372036854775807) (hb : b ≠ 0) :
    (∃ q r : Int, divide a b = some (q, r) ∧
      -9223372036854775808 ≤ q ∧ q ≤ 9223372036854775807 ∧
      -9223372036854775808 ≤ r ∧ r ≤ 9223372036854775807 ∧
      wrap64 (q * b + r) = a ∧
      |r| < |b| ∧
      (r = 0 ∨ (0 < r ∧ 0 < a) ∨ (r < 0 ∧ a < 0)) ∧
      ((a ≠ -9223372036854775808 ∨ b ≠ -1) → q = Int.tdiv a b ∧ q * b + r = a)) ∧
    divide 17 5 = some (3, 2) ∧
    divide (-17) 5 = some (-3, -2) ∧
    divide (-9223372036854775808) (-1) = some (-9223372036854775808, 0) ∧
    divide a 0 = none := by
  refine ⟨?_, by decide, by decide, by decide, by simp [divide]⟩
  obtain ⟨hr1, hr2, hr3⟩ := tmod_facts a b hb
  have hsum := Int.tdiv_add_tmod a b
  have hd : divide a b = some (wrap64 (Int.tdiv a b), Int.tmod a b) := by
    simp [divide, hb]
  have hgood : (a ≠ -9223372036854775808 ∨ b ≠ -1) →
      wrap64 (Int.tdiv a b) = Int.tdiv a b ∧ wrap64 (Int.tdiv a b) * b + Int.tmod a b = a := by
    intro hcase
    have hrange := tdiv_range a b ha1 ha2 hb hcase
    rw [wrap64_of_range _ hrange.1 hrange.2, Int.mul_comm, hsum]
    exact ⟨rfl, rfl⟩
  refine ⟨wrap64 (Int.tdiv a b), Int.tmod a b, hd, ?_, ?_, ?_, ?_, ?_, ?_, ?_, hgood⟩
  · unfold wrap64; omega
  · unfold wrap64; omega
  · omega
  · omega
  · by_cases hcase : a = -9223372036854775808 ∧ b = -1
    · obtain ⟨h1, h2⟩ := hcase
      subst h1 h2
      decide
    · rw [(hgood (by omega)).2]
      exact wrap64_of_range a ha1 ha2
  · rw [← Int.natCast_natAbs, ← Int.natCast_natAbs]
    omega
  · omega

theorem divide_spec_witness :
    (-9223372036854775808 : Int) ≤ -17 ∧ (-17 : Int) ≤ 9223372036854775807 ∧
    (-9223372036854775808 : Int) ≤ 5 ∧ (5 : Int) ≤ 9223372036854775807 ∧ (5 : Int) ≠ 0 ∧
    (∃ q r : Int, divide (-17) 5 = some (q, r) ∧
      -9223372036854775808 ≤ q ∧ q ≤ 9223372036854775807 ∧
      -9223372036854775808 ≤ r ∧ r ≤ 9223372036854775807 ∧
      wrap64 (q * 5 + r) = -17 ∧
      |r| < |(5 : Int)| ∧
      (r = 0 ∨ (0 < r ∧ (0 : Int) < -17) ∨ (r < 0 ∧ (-17 : Int) < 0)) ∧
      (((-17 : Int) ≠ -9223372036854775808 ∨ (5 : Int) ≠ -1) →
        q = Int.tdiv (-17) 5 ∧ q * 5 + r = -17)) :=
  ⟨by decide, by decide, by decide, by decide, by decide,
    (divide_spec (-17) 5 (by decide) (by decide) (by decide) (by decide) (by decide)).1⟩

end Functions

namespace Functions

/-! ## `factorial` -/

/-- The call returns exactly when the stack has room for one record per
level of the recursion, `n` of them (one when `n ≤ 1`). -/
theorem factorial_returns_iff :
    ∀ (frames : Nat) (n : Int),
      factorial frames n ≠ none ↔ (1 ≤ frames ∧ n ≤ (frames : Int)) := by
  intro frames
  induction frames with
  | zero => intro n; simp [factorial]
  | succ f ih =>
    intro n
    by_cases hn : n ≤ 1
    · simp only [factorial, hn, if_true]
      constructor
      · intro _; constructor <;> omega
      · intro _ h; cases h
    · have hrec := ih (n - 1)
      simp only [factorial, hn, if_false]
      cases hv : factorial f (n - 1) with
      | none =>
        rw [hv] at hrec
        simp only [ne_eq, not_true_eq_false, false_iff] at hrec
        simp only [ne_eq, not_true_eq_false, false_iff]
        intro h
        apply hrec
        constructor <;> omega
      | some v =>
        rw [hv] at hrec
        have h2 := hrec.mp (by simp)
        constructor
        · intro _; constructor <;> omega
        · intro _ h; cases h

/-- Without room for `n` records the call does not return. -/
theorem factorial_overflow (frames : Nat) (n : Int) (h : (frames : Int) < n) :
    factorial frames n = none := by
  by_contra hne
  have := (factorial_returns_iff frames n).mp hne
  omega

/-- Spare room on the stack does not change the value returned. -/
theorem factorial_spare :
    ∀ (frames : Nat) (n v : Int), factorial frames n = some v →
      ∀ spare : Nat, factorial (frames + spare) n = some v := by
  intro frames
  induction frames with
  | zero => intro n v h; simp [factorial] at h
  | succ f ih =>
    intro n v h spare
    have e : f + 1 + spare = (f + spare) + 1 := by omega
    rw [e]
    by_cases hn : n ≤ 1
    · simp only [factorial, hn, if_true] at h ⊢
      exact h
    · simp only [factorial, hn, if_false] at h ⊢
      cases hv : factorial f (n - 1) with
      | none => rw [hv] at h; cases h
      | some u =>
        rw [hv] at h
        rw [ih (n - 1) u hv spare]
        exact h

theorem factorial_le_one (frames : Nat) (n : Int) (hf : 1 ≤ frames) (h : n ≤ 1) :
    factorial frames n = some 1 := by
  obtain ⟨f, rfl⟩ : ∃ f, frames = f + 1 := ⟨frames - 1, by omega⟩
  simp only [factorial, h, if_true]

theorem factorial_twenty : Nat.factorial 20 = 2432902008176640000 := by decide

/-- Up to 20, with room for the recursion, the products stay within 64 bits
and the value returned is the mathematical factorial. -/
theorem factorial_nat (k : Nat) (hk : k ≤ 20) :
    ∀ frames : Nat, 1 ≤ frames → k ≤ frames →
      factorial frames (k : Int) = some (Nat.factorial k : Int) := by
  induction k with
  | zero =>
    intro frames h1 _
    rw [factorial_le_one frames _ h1 (by omega)]; rfl
  | succ m ih =>
    intro frames h1 hf
    rcases Nat.eq_zero_or_pos m with h0 | hpos
    · subst h0
      rw [factorial_le_one frames _ h1 (by omega)]; rfl
    · obtain ⟨f, rfl⟩ : ∃ f, frames = f + 1 := ⟨frames - 1, by omega⟩
      have hnot : ¬ (((m + 1 : Nat) : Int) ≤ 1) := by omega
      have hsub : ((m + 1 : Nat) : Int) - 1 = (m : Int) := by omega
      simp only [factorial, hnot, if_false, hsub, ih (by omega) f (by omega) (by omega)]
      have hle : Nat.factorial (m + 1) ≤ 2432902008176640000 := by
        rw [← factorial_twenty]
        exact Nat.factorial_le hk
      have hcast : ((m + 1 : Nat) : Int) * (Nat.factorial m : Int)
          = ((Nat.factorial (m + 1) : Nat) : Int) := by
        rw [Nat.factorial_succ]; push_cast; ring
      rw [hcast, wrap64_of_range _ (by omega) (by omega)]

/-- C26 (as stated, refuted): the recursion does not come to an end for
every integer.  `factorial 100000000` needs a hundred million activation
records at once, more than a goroutine stack can hold, and the run dies with
a stack overflow; so does the call on the largest `int`, even counting a
single byte per record. -/
theorem factorial_stack_overflow :
    ¬ (∀ n : Int, factorial maxFrames n ≠ none) ∧
    factorial maxFrames 100000000 = none ∧
    factorial 1000000000 9223372036854775807 = none :=
  ⟨fun hall => hall 100000000 (factorial_overflow maxFrames 100000000 (by decide)),
    factorial_overflow maxFrames 100000000 (by decide),
    factorial_overflow 1000000000 9223372036854775807 (by decide)⟩

/-- C26 (amended): `factorial n` returns exactly when the stack has room for
the `n` nested calls of the recursion (one call when `n ≤ 1`), and what it
returns does not depend on spare room; when it returns, the value is 1 for
every `n ≤ 1`, negative `n` included, and for `0 ≤ n ≤ 20` it is the
mathematical factorial of `n`, no product overflowing 64 bits (the product
for 21 is the first to wrap); `factorial 5 = 120` and `factorial 7 = 5040`. -/
theorem factorial_spec (frames : Nat) (n : Int) :
    (factorial frames n ≠ none ↔ (1 ≤ frames ∧ n ≤ (frames : Int))) ∧
    (∀ v : Int, factorial frames n = some v →
      ∀ spare : Nat, factorial (frames + spare) n = some v) ∧
    (n ≤ 1 → 1 ≤ frames → factorial frames n = some 1) ∧
    (0 ≤ n → n ≤ 20 → 1 ≤ frames → n ≤ (frames : Int) →
      factorial frames n = some (Nat.factorial n.toNat : Int)) ∧
    factorial 5 5 = some 120 ∧ factorial 7 7 = some 5040 ∧
    factorial maxFrames 5 = some 120 ∧ factorial maxFrames 7 = some 5040 ∧
    factorial 1 0 = some 1 ∧ factorial 1 (-3) = some 1 ∧
    factorial 20 20 = some 2432902008176640000 ∧
    factorial 21 21 = some (-4249290049419214848) := by
  refine ⟨factorial_returns_iff frames n, factorial_spare frames n,
    fun h hf => factorial_le_one frames n hf h, ?_, by decide, by decide, ?_, ?_,
    by decide, by decide, by decide, by decide⟩
  · intro h0 h20 h1 hf
    have hk : n.toNat ≤ 20 := by omega
    have := factorial_nat n.toNat hk frames h1 (by omega)
    rw [Int.toNat_of_nonneg h0] at this
    exact this
  · have e : maxFrames = 5 + 62499995 := by decide
    rw [e]
    exact factorial_spare 5 5 120 (by decide) 62499995
  · have e : maxFrames = 7 + 62499993 := by decide
    rw [e]
    exact factorial_spare 7 7 5040 (by decide) 62499993

theorem factorial_spec_witness :
    ((-7 : Int) ≤ 1 ∧ 1 ≤ 3 ∧ factorial 3 (-7) = some 1) ∧
    ((0 : Int) ≤ 10 ∧ (10 : Int) ≤ 20 ∧ 1 ≤ 12 ∧ (10 : Int) ≤ ((12 : Nat) : Int) ∧
      factorial 12 10 = some (Nat.factorial (10 : Int).toNat : Int)) ∧
    factorial 12 10 = some 3628800 ∧
    factorial 9 10 = none :=
  ⟨⟨by decide, by decide, (factorial_spec 3 (-7)).2.2.1 (by decide) (by decide)⟩,
    ⟨by decide, by decide, by decide, by decide,
      (factorial_spec 12 10).2.2.2.1 (by decide) (by decide) (by decide) (by decide)⟩,
    by decide, by decide⟩

end Functions

namespace Functions

/-! ## `reverseString` -/

theorem swapRunes_split (a mid b : List Char) (x y : Char) :
    swapRunes (a ++ x :: (mid ++ y :: b)) a.length (a.length + mid.length + 1)
      = a ++ y :: (mid ++ x :: b) := by
  have h1 : (a ++ x :: (mid ++ y :: b)).getD (a.length + mid.length + 1) default = y := by
    rw [List.getD_append_right _ _ _ _ (by omega)]
    have e : a.length + mid.length + 1 - a.length = mid.length + 1 := by omega
    rw [e, List.getD_cons_succ, List.getD_append_right _ _ _ _ (by omega)]
    simp
  have h2 : (a ++ x :: (mid ++ y :: b)).getD a.length default = x := by
    rw [List.getD_append_right _ _ _ _ (by omega)]
    simp
  unfold swapRunes
  rw [h1, h2]
  have e1 : (a ++ x :: (mid ++ y :: b)).set a.length y = a ++ y :: (mid ++ y :: b) := by
    simp [List.set_append]
  rw [e1]
  have e2 : a.length + mid.length + 1 - a.length = mid.length + 1 := by omega
  have hlt : ¬ a.length + mid.length + 1 < a.length := by omega
  rw [List.set_append, if_neg hlt, e2, List.set_cons_succ, List.set_append,
    if_neg (by omega : ¬ mid.length < mid.length)]
  simp

theorem reverse_short (mid : List Char) (h : mid.length ≤ 1) : mid.reverse = mid := by
  match mid, h with
  | [], _ => rfl
  | [_], _ => rfl

/-- With enough iterations the loop started on both ends of a segment
reverses that segment and leaves the rest in place. -/
theorem reverseLoop_spec :
    ∀ (fuel : Nat) (mid a b : List Char), mid.length ≤ 2 * fuel + 1 →
      reverseLoop fuel (a ++ (mid ++ b)) (a.length : Int)
          ((a.length : Int) + (mid.length : Int) - 1)
        = a ++ (mid.reverse ++ b) := by
  intro fuel
  induction fuel with
  | zero =>
    intro mid a b h
    rw [reverse_short mid (by omega)]
    rfl
  | succ k ih =>
    intro mid a b h
    by_cases hshort : mid.length ≤ 1
    · have hnot : ¬ ((a.length : Int) < (a.length : Int) + (mid.length : Int) - 1) := by omega
      rw [reverse_short mid hshort]
      simp only [reverseLoop, hnot, if_false]
    · have hlt : (a.length : Int) < (a.length : Int) + (mid.length : Int) - 1 := by omega
      match mid, hshort, h, hlt with
      | x :: t, hshort, h, hlt =>
        rcases List.eq_nil_or_concat t with ht | ⟨mid2, y, ht⟩
        · subst ht
          simp at hshort
        · rw [List.concat_eq_append] at ht
          subst ht
          have hj : ((a.length : Int) + ((x :: (mid2 ++ [y])).length : Int) - 1).toNat
              = a.length + mid2.length + 1 := by
            simp only [List.length_cons, List.length_append, List.length_nil]
            omega
          have hsw := swapRunes_split a mid2 b x y
          have hih := ih mid2 (a ++ [y]) (x :: b) (by
            simp only [List.length_cons, List.length_append, List.length_nil] at h
            omega)
          simp only [reverseLoop, hlt, if_true, Int.toNat_ofNat, hj]
          have e0 : a ++ (x :: (mid2 ++ [y]) ++ b) = a ++ x :: (mid2 ++ y :: b) := by simp
          rw [e0, hsw]
          have e1 : a ++ y :: (mid2 ++ x :: b) = (a ++ [y]) ++ (mid2 ++ x :: b) := by simp
          have e2 : (a.length : Int) + 1 = ((a ++ [y]).length : Int) := by simp
          have e3 : (a.length : Int) + ((x :: (mid2 ++ [y])).length : Int) - 1 - 1
              = ((a ++ [y]).length : Int) + (mid2.length : Int) - 1 := by
            simp only [List.length_cons, List.length_append, List.length_nil]
            push_cast
            omega
          rw [e1, e2, e3, hih]
          simp

/-- C28: `reverseString` returns the code points of its argument in the
opposite order, as many as before, and applying it twice gives the argument
back; on "Hello, Go!" it returns "!oG ,olleH". -/
theorem reverseString_spec (s : String) :
    (reverseString s).data = s.data.reverse ∧
    (reverseString s).length = s.length ∧
    reverseString (reverseString s) = s ∧
    reverseString "Hello, Go!" = "!oG ,olleH" := by
  have hdata : ∀ t : String, (reverseString t).data = t.data.reverse := by
    intro t
    have h := reverseLoop_spec t.data.length t.data [] [] (by omega)
    simp only [List.nil_append, List.append_nil, List.length_nil, Int.Nat.cast_ofNat_Int,
      Int.zero_add] at h
    simp only [reverseString]
    exact h
  refine ⟨hdata s, ?_, ?_, by decide⟩
  · simp only [String.length, hdata s, List.length_reverse]
  · apply String.ext
    rw [hdata, hdata, List.reverse_reverse]

end Functions
